import Mathlib

/-!
# Covariance engine of the BRDF principal-component tool

A shallow embedding of `PCA/src/main.cpp`: the vector operations, the
component-wise logarithm, the `CovMat` container, the mean pass and the
triangular covariance loop of `main`.

Modelling conventions.

* The definitions use only the operations that the source applies to
  `double` (`+`, `-`, `*`, `/`, unary minus, `<`, `!=`, the conversions from
  `int` and `bool`), so they are defined on any type with these operations.
  The theorems about values take the `double` values to be the elements of an
  ordered field `α` (exact arithmetic: no rounding, no infinities, no NaN);
  the theorem about the NaN assertion holds for any operations.  Two further
  scalar types run the same definitions: `Dbl`, the rationals with a NaN, and
  `Binary64`, the rationals with every result rounded to 53 bits.  `log` of
  `<cmath>` is a parameter of a run, as is the preprocessor symbol
  `DONT_USE_BLAS`, which selects one of the two bodies of `dot`, `add`, `sub`
  and `scalar_mult`.
* `double*` buffers are lists; `a[i]` reads `a.getD i 0` and `a[i] = v` is
  `a.set i v`.  The length argument `N` of the vector functions stays a
  separate argument, as in the source.
* `int` and `size_t` quantities are natural numbers.  The first `int` product
  of a run is `N * N` in the constructor of `CovMat`, which produces no matrix
  when the product exceeds `INT_MAX`; whenever it is within `INT_MAX`, so are
  `num_rows * (num_rows + 1)` and every cell index (`int_products_in_range`),
  so no later `int` value of the engine overflows.
* The percentage of the progress report is the one value that the source
  converts from `double` back to `int`; it is computed with the rounding of
  `double` arithmetic (`to_double`, `percent_complete`).
* In an ordered field a division by zero yields zero, on `Dbl` it yields the
  NaN.  The divisors of the engine are the number of files and
  `matrix_row_size`.
* `assert` is modelled by `Option`: a failed assertion is `none`.  The check
  `assert(errno == 0)` is outside the model.
* An input file is the list of the doubles that follow its header.
* A `std::string` is the list of its characters; `std::string::find` and the
  stream extraction `operator>>` of the standard library are modelled in
  `StringUtils`.
-/

namespace BrdfPca

/-- The largest value of a 32-bit `int`. -/
def INT_MAX : Nat := 2147483647

/-- Number of BRDF measurements in a single color channel. -/
def NUMEL_1_BRDF_CHANNEL : Nat := 90 * 90 * 180

/-- The loop `for (int i = 0; i < n; ++i) body`, threading the state `s`
through the iterations `i = 0, 1, ..., n - 1` in this order. -/
def forLoop {σ : Type} (n : Nat) (body : Nat → σ → σ) (s : σ) : σ :=
  match n with
  | 0 => s
  | k + 1 => body k (forLoop k body s)

/-- The loop `for (int i = 0; i < n; ++i) body` for a body that may abort
(a failed `assert`): the first `none` ends the run. -/
def forLoopM {σ : Type} (n : Nat) (body : Nat → σ → Option σ) (s : σ) : Option σ :=
  match n with
  | 0 => some s
  | k + 1 => (forLoopM k body s).bind (body k)

section VectorOps

variable {α : Type} [Zero α] [One α] [Add α] [Sub α] [Mul α] [Div α] [Neg α] [NatCast α]
  [LT α] [DecidableRel (fun (x y : α) => x < y)] [BEq α]

/-- Modelled from the spec: the BLAS routine behind `DDOT(N, a, 1, b, 1)`
(`cblas.h` is not part of the repository).  The spec gives it the semantics
of a plain dot product, a literal accumulation of `a[i]*b[i]` with no
scaling. -/
def DDOT (N : Nat) (a b : List α) : α :=
  forLoop N (fun i accum => accum + a.getD i 0 * b.getD i 0) 0

/-- Modelled from the spec: the BLAS routine behind `DAXPY(N, alpha, x, 1, y, 1)`
(`cblas.h` is not part of the repository): in place `y += alpha * x`, which
the spec uses for `a += b` and `a -= b`. -/
def DAXPY (N : Nat) (alpha : α) (x y : List α) : List α :=
  forLoop N (fun i y => y.set i (alpha * x.getD i 0 + y.getD i 0)) y

/-- Modelled from the spec: the BLAS routine behind `DSCAL(N, c, 1, a)`
(`cblas.h` is not part of the repository): in place `a *= c`. -/
def DSCAL (N : Nat) (c : α) (a : List α) : List α :=
  forLoop N (fun i a => a.set i (a.getD i 0 * c)) a

/-- Dot product of two N dimensional vectors (`dot`, main.cpp 24-35).  With
`DONT_USE_BLAS` the accumulated sum is divided by `N`.  In the other build
the body is the bare call `DDOT(N, a, 1, b, 1);` with no `return`; the value
of that call is taken as the value of the function. -/
def dot (DONT_USE_BLAS : Bool) (a b : List α) (N : Nat) : α :=
  if DONT_USE_BLAS then
    let accum := forLoop N (fun i accum => accum + a.getD i 0 * b.getD i 0) (0 : α)
    accum / (N : α)
  else
    DDOT N a b

/-- Vector addition `a += b` (`add`, main.cpp 37-46); the result is the new
content of `a`. -/
def add (DONT_USE_BLAS : Bool) (a b : List α) (N : Nat) : List α :=
  if DONT_USE_BLAS then
    forLoop N (fun i a => a.set i (a.getD i 0 + b.getD i 0)) a
  else
    DAXPY N 1 b a

/-- Vector subtraction `a -= b` (`sub`, main.cpp 48-57); the result is the
new content of `a`. -/
def sub (DONT_USE_BLAS : Bool) (a b : List α) (N : Nat) : List α :=
  if DONT_USE_BLAS then
    forLoop N (fun i a => a.set i (a.getD i 0 - b.getD i 0)) a
  else
    DAXPY N (-1) b a

/-- Scalar multiplication `a *= c` (`scalar_mult`, main.cpp 59-68).  The
source guards the explicit loop with `#ifndef DONT_USE_BLAS`. -/
def scalar_mult (DONT_USE_BLAS : Bool) (a : List α) (c : α) (N : Nat) : List α :=
  if !DONT_USE_BLAS then
    forLoop N (fun i a => a.set i (a.getD i 0 * c)) a
  else
    DSCAL N c a

/-- The constant `SMALL_VAL = 1e-10` of `component_wise_log`. -/
def SMALL_VAL : α := 1 / 10000000000

/-- The `fabs` of `<cmath>`: the value without its sign. -/
def fabs (x : α) : α := if x < 0 then -x else x

/-- The conversion of a C++ `bool` to `double`. -/
def bool_to_double (b : Bool) : α := if b then 1 else 0

/-- Take the log base e of all elements in a vector (`component_wise_log`,
main.cpp 70-91).  The test of the source is `if (fabs(a[i] < SMALL_VAL))`:
the comparison is converted to a number, `fabs` is applied to it, and the
branch is taken when the result is non-zero. -/
def component_wise_log (log : α → α) (a : List α) (N : Nat) (take_log : Bool) : List α :=
  if !take_log then a
  else
    forLoop N (fun i a =>
      if fabs (bool_to_double (decide (a.getD i 0 < SMALL_VAL)) : α) != 0 then
        a.set i 0
      else
        if a.getD i 0 > 0 then
          a.set i (log (a.getD i 0))
        else
          a.set i (-(log (-(a.getD i 0))))) a

/-- The value that one iteration of the loop of `component_wise_log` assigns
to `a[i]` when it holds `x`: the three assignments of the loop body, selected
by the same tests. -/
def log_elem (log : α → α) (x : α) : α :=
  if fabs (bool_to_double (decide (x < SMALL_VAL)) : α) != 0 then 0
  else if x > 0 then log x
  else -(log (-x))

/-- The test `val != val` of `IsNaN` (main.cpp 124-126). -/
def IsNaN (val : α) : Bool := val != val

/-- Whether one of the first `N` elements is a NaN (`HasANaN`, main.cpp 128-135). -/
def HasANaN (buf : List α) (N : Nat) : Bool :=
  forLoop N (fun i found => found || IsNaN (buf.getD i 0)) false

end VectorOps

/-- Simple covariance matrix class (`CovMat`, main.cpp 96-121): the dimension
`N` and the row-major data of `N * N` cells. -/
structure CovMat (α : Type) where
  N : Nat
  data : List α
deriving DecidableEq

namespace CovMat

variable {α : Type}

/-- The constructor `CovMat(n_rows, init_val)`: `assert(N > 0)`, then the
array `new double[N * N]` with every cell set to `init_val` by the loop.
`N * N` is a product of two `int`: beyond `INT_MAX` it overflows, the
behaviour is undefined (the array size wraps around: `new` throws for a
negative size and allocates fewer than `N * N` cells otherwise), and no
matrix is produced. -/
def create (n_rows : Nat) (init_val : α) : Option (CovMat α) :=
  if 0 < n_rows then
    if n_rows * n_rows ≤ INT_MAX then
      some { N := n_rows, data := List.replicate (n_rows * n_rows) init_val }
    else none
  else none

/-- The accessor `operator()(row, col)` used to read a cell: both assertions,
then `data[row * N + col]`. -/
def get (m : CovMat α) (row col : Nat) : Option α :=
  if row < m.N then
    if col < m.N then m.data.get? (row * m.N + col) else none
  else none

/-- The accessor `operator()(row, col)` used to assign a cell: both
assertions, then `data[row * N + col] = value`. -/
def set (m : CovMat α) (row col : Nat) (value : α) : Option (CovMat α) :=
  if row < m.N then
    if col < m.N then some { m with data := m.data.set (row * m.N + col) value } else none
  else none

/-- The accessor `getNumRows`. -/
def getNumRows (m : CovMat α) : Nat := m.N

/-- The accessor `getNumCols`. -/
def getNumCols (m : CovMat α) : Nat := m.N

end CovMat

section Engine

variable {α : Type} [Zero α] [One α] [Add α] [Sub α] [Mul α] [Div α] [Neg α] [NatCast α]
  [LT α] [DecidableRel (fun (x y : α) => x < y)] [BEq α]

/-- One run of the engine: the build (`DONT_USE_BLAS`), the `log` of
`<cmath>`, the four boolean options with the defaults of `main`, the length
`matrix_row_size` of the buffers and the opened input files. -/
structure Run (α : Type) where
  DONT_USE_BLAS : Bool
  log : α → α
  take_log : Bool := true
  whiten_data : Bool := true
  scale_covariances : Bool := false
  whiten_before_log : Bool := true
  matrix_row_size : Nat
  in_files : List (List α)

/-- The value `NUMEL_1_BRDF_CHANNEL * num_color_channels` that `main` gives to
`matrix_row_size` (main.cpp 245). -/
def matrix_row_size_of (num_color_channels : Nat) : Nat :=
  NUMEL_1_BRDF_CHANNEL * num_color_channels

/-- The pair `seekg(HEADER_SIZE_BYTES); read((char*)buf, matrix_row_size *
sizeof(double))`: the first `matrix_row_size` doubles of the file replace the
start of the buffer. -/
def read (file buf : List α) (matrix_row_size : Nat) : List α :=
  file.take matrix_row_size ++ buf.drop (file.take matrix_row_size).length

/-- The three buffers `mean_buf`, `buf_a` and `buf_b` of `main`. -/
structure Buffers (α : Type) where
  mean_buf : List α
  buf_a : List α
  buf_b : List α

/-- The allocation of the three buffers and the loop that zeroes them
(main.cpp 256-263). -/
def zero_buffers (matrix_row_size : Nat) : Buffers α :=
  { mean_buf := List.replicate matrix_row_size 0,
    buf_a := List.replicate matrix_row_size 0,
    buf_b := List.replicate matrix_row_size 0 }

/-- The body of the loop of the mean pass (main.cpp 269-277): read the
current BRDF into `buf_a`, take its logarithm unless whitening comes before
the logarithm, and add it to `mean_buf`. -/
def mean_body (R : Run α) (i : Nat) (b : Buffers α) : Buffers α :=
  -- Read current BRDF info buf_a.
  let buf_a := read (R.in_files.getD i []) b.buf_a R.matrix_row_size
  let buf_a :=
    if !R.whiten_before_log then
      component_wise_log R.log buf_a R.matrix_row_size R.take_log
    else buf_a
  -- Add mean_buf += buf_a
  { b with buf_a := buf_a,
           mean_buf := add R.DONT_USE_BLAS b.mean_buf buf_a R.matrix_row_size }

/-- Find the mean BRDF (main.cpp 265-286). -/
def mean_pass (R : Run α) (b : Buffers α) : Buffers α :=
  if R.whiten_data then
    let b := forLoop R.in_files.length (mean_body R) b
    { b with mean_buf := scalar_mult R.DONT_USE_BLAS b.mean_buf
                           (1 / (R.in_files.length : α)) R.matrix_row_size }
  else b

/-- The constant `REQ_PERC_JUMP_FOR_UPDATE`: update every 5 percent. -/
def REQ_PERC_JUMP_FOR_UPDATE : Int := 5

/-! ### The `double` arithmetic of the progress report

The percentage of the progress report is computed in `double` and then
truncated (main.cpp 352).  A `double` is IEEE-754 binary64: every basic
operation yields the exact result rounded to the nearest value with a
significand of 53 bits, ties to the even significand.  `to_double` is this
rounding on the rationals; the exponent range is not bounded (no overflow, no
subnormal values). -/

/-- The position of the leading bit of `n`: the `k` with `2 ^ k ≤ n < 2 ^ (k + 1)`
for `0 < n ≤ fuel`, found by halving. -/
def floor_log2 : Nat → Nat → Nat
  | 0, _ => 0
  | fuel + 1, n => if 2 ≤ n then floor_log2 fuel (n / 2) + 1 else 0

/-- The integer nearest to `y`, the even one of the two when `y` lies half
way between them. -/
def round_nearest_even (y : ℚ) : Int :=
  let f := Int.floor y
  let r := y - f
  if r < 1 / 2 then f
  else if 1 / 2 < r then f + 1
  else if f % 2 = 0 then f else f + 1

/-- The binary exponent of `x ≠ 0`: the `e` with `2 ^ e ≤ |x| < 2 ^ (e + 1)`.
The difference of the leading bit positions of numerator and denominator is
`e` or `e + 1`. -/
def binade (x : ℚ) : Int :=
  let a : Int := (floor_log2 x.num.natAbs x.num.natAbs : Int) - (floor_log2 x.den x.den : Int)
  if (2 : ℚ) ^ a ≤ |x| then a else a - 1

/-- Rounding to `double`: the multiple of `2 ^ (e - 52)` nearest to `x`, ties to
even, where `e` is the binary exponent of `x`. -/
def to_double (x : ℚ) : ℚ :=
  if x = 0 then 0
  else
    let e := binade x
    (round_nearest_even (x * (2 : ℚ) ^ (52 - e)) : ℚ) * (2 : ℚ) ^ (e - 52)

/-- The conversion `static_cast<int>` of a `double`: truncation toward zero. -/
def double_to_int (q : ℚ) : Int := Int.tdiv q.num q.den

/-- The percentage of main.cpp 352,
`static_cast<int>((static_cast<double>(count) / static_cast<double>(count_max)) * 100.0)`:
the two `int` convert to `double` without rounding, the quotient is rounded,
the product with `100.0` is rounded, and the result is truncated. -/
def percent_complete (count count_max : Nat) : Int :=
  let quotient := to_double ((count : ℚ) / (count_max : ℚ))
  double_to_int (to_double (quotient * 100))

/-- The state of the covariance loop: the two vector buffers, the matrix, the
counter, the last percentage printed and the percentages printed so far. -/
structure LoopState (α : Type) where
  buf_a : List α
  buf_b : List α
  covariance_matrix : CovMat α
  count : Nat
  prev_perc : Int
  printed : List Int

/-- Read in BRDF buffer for this row (main.cpp 309-322): file `r` is read
into `buf_a`, which is then whitened and logged as configured. -/
def load_row (R : Run α) (mean_buf : List α) (r : Nat) (buf_a : List α) : List α :=
  let buf_a := read (R.in_files.getD r []) buf_a R.matrix_row_size
  if R.whiten_data then
    if R.whiten_before_log then
      let buf_a := sub R.DONT_USE_BLAS buf_a mean_buf R.matrix_row_size
      component_wise_log R.log buf_a R.matrix_row_size R.take_log
    else
      let buf_a := component_wise_log R.log buf_a R.matrix_row_size R.take_log
      sub R.DONT_USE_BLAS buf_a mean_buf R.matrix_row_size
  else
    component_wise_log R.log buf_a R.matrix_row_size R.take_log

/-- Read in BRDF buffer for this column (main.cpp 326-339): file `c` is read
into `buf_b`, which is then whitened and logged as configured. -/
def load_column (R : Run α) (mean_buf : List α) (c : Nat) (buf_b : List α) : List α :=
  let buf_b := read (R.in_files.getD c []) buf_b R.matrix_row_size
  if R.whiten_data then
    if R.whiten_before_log then
      let buf_b := sub R.DONT_USE_BLAS buf_b mean_buf R.matrix_row_size
      component_wise_log R.log buf_b R.matrix_row_size R.take_log
    else
      let buf_b := component_wise_log R.log buf_b R.matrix_row_size R.take_log
      sub R.DONT_USE_BLAS buf_b mean_buf R.matrix_row_size
  else
    component_wise_log R.log buf_b R.matrix_row_size R.take_log

/-- The body of the column loop (main.cpp 326-358) for row `r` and column `c`. -/
def column_body (R : Run α) (mean_buf : List α) (count_max : Nat) (r c : Nat)
    (s : LoopState α) : Option (LoopState α) :=
  let buf_b := load_column R mean_buf c s.buf_b
  -- Compute the large dot product.
  let value := dot R.DONT_USE_BLAS s.buf_a buf_b R.matrix_row_size
  let value := if R.scale_covariances then value / (R.matrix_row_size : α) else value
  if IsNaN value then none
  else
    (s.covariance_matrix.set r c value).bind fun m =>
    (m.set c r value).bind fun m =>
      let perc := percent_complete s.count count_max
      let shown := decide (perc ≥ s.prev_perc + REQ_PERC_JUMP_FOR_UPDATE)
      some { buf_a := s.buf_a,
             buf_b := buf_b,
             covariance_matrix := m,
             count := s.count + 1,
             prev_perc := if shown then perc else s.prev_perc,
             printed := if shown then s.printed ++ [perc] else s.printed }

/-- The body of the row loop (main.cpp 309-359) for row `r`: the row buffer
is read and transformed, then the column loop runs for `c = 0, ..., r`. -/
def row_body (R : Run α) (mean_buf : List α) (count_max : Nat) (r : Nat)
    (s : LoopState α) : Option (LoopState α) :=
  let buf_a := load_row R mean_buf r s.buf_a
  forLoopM (r + 1) (column_body R mean_buf count_max r) { s with buf_a := buf_a }

/-- The covariance loop `for (int r = 0; r < num_rows; ++r)` (main.cpp 307-360). -/
def covariance_loop (R : Run α) (mean_buf : List α) (num_rows count_max : Nat)
    (s : LoopState α) : Option (LoopState α) :=
  forLoopM num_rows (row_body R mean_buf count_max) s

/-- What a completed run leaves behind: the mean buffer, the matrix, the
counter with its bound, and the percentages printed. -/
structure Outcome (α : Type) where
  mean_buf : List α
  covariance_matrix : CovMat α
  count : Nat
  count_max : Nat
  printed : List Int
deriving DecidableEq

/-- The engine part of `main` (main.cpp 256-360): buffers, mean pass, NaN
assertions, construction of the matrix with the sentinel `-999.0`, and the
covariance loop. -/
def engine (R : Run α) : Option (Outcome α) :=
  let b := mean_pass R (zero_buffers R.matrix_row_size)
  -- Make sure we are NaN free
  if HasANaN b.mean_buf R.matrix_row_size || HasANaN b.buf_a R.matrix_row_size
      || HasANaN b.buf_b R.matrix_row_size then none
  else
    let num_rows := R.in_files.length
    (CovMat.create num_rows (-999 : α)).bind fun covariance_matrix =>
      let count_max := (num_rows * (num_rows + 1)) / 2
      (covariance_loop R b.mean_buf num_rows count_max
          { buf_a := b.buf_a, buf_b := b.buf_b, covariance_matrix := covariance_matrix,
            count := 0, prev_perc := -REQ_PERC_JUMP_FOR_UPDATE * 2, printed := [] }).map
        fun s =>
          { mean_buf := b.mean_buf, covariance_matrix := s.covariance_matrix,
            count := s.count, count_max := count_max, printed := s.printed }

/-! ### Definitions that follow the words of the specification -/

/-- The plain inner product of the specification: the sum over `i < N` of
`a[i] * b[i]`. -/
def inner_product {β : Type} [LinearOrderedField β] (a b : List β) (N : Nat) : β :=
  ∑ i in Finset.range N, a.getD i 0 * b.getD i 0

/-- The sign-preserving logarithm of the specification for one element: `0`
if `|x| < 1e-10`, else `ln x` if `x > 0`, else `-ln (-x)`. -/
def spec_log {β : Type} [LinearOrderedField β] (log : β → β) (x : β) : β :=
  if |x| < 1 / 10000000000 then 0 else if x > 0 then log x else -(log (-x))

/-- The transform pipeline `T` of the specification for the configuration of
the run `R` and the mean vector `mean`: `log (v - mean)` when whitening comes
before the logarithm, `log v - mean` when it comes after, `log v` without
whitening, where `log` is `component_wise_log` with the configured
`take_log`. -/
def T (R : Run α) (mean v : List α) : List α :=
  match R.whiten_data, R.whiten_before_log with
  | true, true =>
    component_wise_log R.log (sub R.DONT_USE_BLAS v mean R.matrix_row_size)
      R.matrix_row_size R.take_log
  | true, false =>
    sub R.DONT_USE_BLAS (component_wise_log R.log v R.matrix_row_size R.take_log)
      mean R.matrix_row_size
  | false, _ => component_wise_log R.log v R.matrix_row_size R.take_log

/-- The matrix entry of the specification for two transformed vectors:
their `dot`, divided by the dimension when `scale_covariances` is set. -/
def spec_entry (R : Run α) (x y : List α) : α :=
  if R.scale_covariances then
    dot R.DONT_USE_BLAS x y R.matrix_row_size / (R.matrix_row_size : α)
  else dot R.DONT_USE_BLAS x y R.matrix_row_size

/-- The mean vector that the mean pass of a run leaves in `mean_buf`. -/
def mean_of (R : Run α) : List α :=
  (mean_pass R (zero_buffers R.matrix_row_size)).mean_buf

/-- The input vector `v_i` of a run: the content of file `i`. -/
def input (R : Run α) (i : Nat) : List α := R.in_files.getD i []

/-- The vector `u_i` that the mean pass accumulates for an input vector `v`:
`component_wise_log(v, take_log)` when `whiten_before_log` is false, the raw
`v` when it is true. -/
def summand (R : Run α) (v : List α) : List α :=
  if R.whiten_before_log then v
  else component_wise_log R.log v R.matrix_row_size R.take_log

/-- The value that the loop stores in the cells `(i, j)` and `(j, i)`: the
entry computed when the larger index is the row and the smaller one the
column. -/
def stored_entry (R : Run α) (mean : List α) (i j : Nat) : α :=
  spec_entry R (T R mean (input R (max i j))) (T R mean (input R (min i j)))

/-! ### The pairs of the triangular iteration -/

/-- The pairs `(r, 0), ..., (r, k - 1)`: the first `k` columns of row `r`. -/
def column_pairs (r : Nat) : Nat → List (Nat × Nat)
  | 0 => []
  | k + 1 => column_pairs r k ++ [(r, k)]

/-- The pairs `(r, c)` with `c ≤ r < N`, row after row and, within a row,
by increasing column. -/
def triangle_pairs : Nat → List (Nat × Nat)
  | 0 => []
  | n + 1 => triangle_pairs n ++ column_pairs n (n + 1)

/-- The work of the covariance loop for one pair `(r, c)`: at the first
column the row buffer is loaded, then the body of the column loop runs once
(one call of `dot`). -/
def pair_step (R : Run α) (mean_buf : List α) (count_max : Nat) (s : LoopState α)
    (p : Nat × Nat) : Option (LoopState α) :=
  if p.2 = 0 then
    column_body R mean_buf count_max p.1 p.2 { s with buf_a := load_row R mean_buf p.1 s.buf_a }
  else
    column_body R mean_buf count_max p.1 p.2 s

/-! ### Concrete runs -/

/-- The run of the end-to-end scenario: the three vectors `[1,1,1,1]`,
`[2,2,2,2]`, `[0,0,0,0]` of dimension 4, with `take_log`, `whiten_data` and
`scale_covariances` all false, in the build selected by the argument.  The
logarithm is never called (`take_log` is false), so any function can stand
for it. -/
def run_three_vectors (DONT_USE_BLAS : Bool) : Run ℚ :=
  { DONT_USE_BLAS := DONT_USE_BLAS,
    log := fun x => x,
    take_log := false,
    whiten_data := false,
    scale_covariances := false,
    whiten_before_log := true,
    matrix_row_size := 4,
    in_files := [[1, 1, 1, 1], [2, 2, 2, 2], [0, 0, 0, 0]] }

/-- The same three vectors with whitening and scaling switched on. -/
def run_whitened_scaled (DONT_USE_BLAS : Bool) : Run ℚ :=
  { run_three_vectors DONT_USE_BLAS with whiten_data := true, scale_covariances := true }

/-- Three copies of the vector `[1, 2]`, whitened after the disabled
logarithm, with scaled covariances, built with `DONT_USE_BLAS`. -/
def run_constant : Run ℚ :=
  { DONT_USE_BLAS := true,
    log := fun x => x,
    take_log := false,
    whiten_data := true,
    scale_covariances := true,
    whiten_before_log := false,
    matrix_row_size := 2,
    in_files := [[1, 2], [1, 2], [1, 2]] }

/-- The state in which `main` starts the covariance loop for the three
vectors of the end-to-end scenario: zeroed buffers, the matrix filled with
the sentinel, the counter at zero. -/
def start_three_vectors : LoopState ℚ :=
  { buf_a := [0, 0, 0, 0],
    buf_b := [0, 0, 0, 0],
    covariance_matrix := { N := 3, data := List.replicate 9 (-999) },
    count := 0,
    prev_perc := -REQ_PERC_JUMP_FOR_UPDATE * 2,
    printed := [] }

end Engine

section Reporting

variable {α : Type}

/-- One line of the result file (the inner loop of main.cpp 363-368): the
cells of row `r`, each read through the accessor, in column order. -/
def write_row (covariance_matrix : CovMat α) (r : Nat) : Option (List α) :=
  forLoopM covariance_matrix.getNumCols
    (fun c line => (covariance_matrix.get r c).map fun value => line ++ [value]) []

/-- Write results to file (main.cpp 363-368): one line for each row. -/
def write_results (covariance_matrix : CovMat α) : Option (List (List α)) :=
  forLoopM covariance_matrix.getNumRows
    (fun r lines => (write_row covariance_matrix r).map fun line => lines ++ [line]) []

end Reporting

/-! ### Strings and command line flags

A `std::string` is the list of its characters.  `std::string::npos` is
`none`. -/

namespace StringUtils

/-- Whether the characters of `pat` are the first characters of `text`: the
comparison that `std::string::find` makes at one position. -/
def matches_at_start : List Char → List Char → Bool
  | [], _ => true
  | _ :: _, [] => false
  | p :: ps, t :: ts => p == t && matches_at_start ps ts

/-- The call `text.find(pat)` of `std::string`: the first position at which
`pat` occurs in `text`, or `npos`. -/
def find : List Char → List Char → Option Nat
  | [], pat => if matches_at_start pat [] then some 0 else none
  | c :: rest, pat =>
    if matches_at_start pat (c :: rest) then some 0 else (find rest pat).map (· + 1)

/-- Check if a string ends with a particular suffix (string_utils.cpp 3-9). -/
def endsWith (to_check suffix : List Char) : Bool :=
  if to_check.length < suffix.length then false
  else ((to_check.drop (to_check.length - suffix.length)).take suffix.length) == suffix

/-- Check if a string starts with a particular beginning (string_utils.cpp
11-13): `to_check.find(beginning) == 0`. -/
def startsWith (to_check beginning : List Char) : Bool :=
  find to_check beginning == some 0

/-- The helper `Implementation::extractAfterEquals` (string_utils.h 41-51):
the text after `flag` when `flag` is found at position 0, the empty string
when it is not found or found further on. -/
def extractAfterEquals (text flag : List Char) : List Char :=
  match find text flag with
  | none => []
  | some loc =>
    if loc + flag.length > flag.length then []
    else text.drop (loc + flag.length)

/-- The template `parseArg` (string_utils.h 53-73) for a type whose stream
extraction `ss >> ret` is `extract` (`none` when the stream fails).  The
result is `some ret` when `*parse_ok` is set to true and `none` when it is
set to false, in which case the source leaves the returned value undefined. -/
def parseArg {T : Type} (extract : List Char → Option T) (arg_text flag_text : List Char) :
    Option T :=
  let arg_val_txt := extractAfterEquals arg_text (flag_text ++ ['='])
  if arg_val_txt.isEmpty then none
  else extract arg_val_txt

/-- The `isspace` of the C locale: space, tab, line feed, vertical tab, form
feed, carriage return. -/
def isspace (c : Char) : Bool := c == ' ' || (9 ≤ c.toNat && c.toNat ≤ 13)

/-- The decimal digits. -/
def isdigit (c : Char) : Bool := 48 ≤ c.toNat && c.toNat ≤ 57

/-- The value of a run of decimal digits, most significant digit first. -/
def digits_value (digits : List Char) : Nat :=
  digits.foldl (fun value d => value * 10 + (d.toNat - 48)) 0

/-- The optional sign that starts a number: whether it is a minus sign, and
the text after it. -/
def strip_sign : List Char → Bool × List Char
  | [] => (false, [])
  | c :: rest =>
    if c = '-' then (true, rest)
    else if c = '+' then (false, rest)
    else (false, c :: rest)

/-- The stream extraction `ss >> ret` for `int` on a stream holding `text`
(`std::num_get` with the default decimal base): leading white space is
skipped, an optional sign and the longest run of digits are read, and the
extraction fails when there is no digit or when the value is outside the
range of a 32-bit `int`. -/
def extract_int (text : List Char) : Option Int :=
  let signed := strip_sign (text.dropWhile isspace)
  let digits := signed.2.takeWhile isdigit
  if digits.isEmpty then none
  else
    let value : Int :=
      if signed.1 then -(digits_value digits : Int) else (digits_value digits : Int)
    if -(INT_MAX : Int) - 1 ≤ value ∧ value ≤ (INT_MAX : Int) then some value else none

/-- The stream extraction `ss >> ret` for `bool` after `ss << std::boolalpha`:
leading white space is skipped and one of the names `true` and `false` is
read; anything else fails. -/
def extract_bool (text : List Char) : Option Bool :=
  let text := text.dropWhile isspace
  if matches_at_start "true".toList text then some true
  else if matches_at_start "false".toList text then some false
  else none

/-- The decimal text of a natural number: its digits, most significant
first, `0` for zero. -/
def nat_text (k : Nat) : List Char :=
  if k = 0 then ['0'] else ((Nat.digits 10 k).reverse).map fun d => Char.ofNat (48 + d)

/-- The decimal text of an integer: a minus sign for a negative number, then
the decimal text of its absolute value. -/
def decimal_text (n : Int) : List Char :=
  if n < 0 then '-' :: nat_text n.natAbs else nat_text n.natAbs

end StringUtils

/-- The optional command line flags of `main` with their defaults (main.cpp
163-169). -/
structure Options where
  num_color_channels : Int := 3
  take_log : Bool := true
  whiten_data : Bool := true
  scale_covariances : Bool := false
  whiten_before_log : Bool := true
deriving DecidableEq

/-- The flag loop of `main` (main.cpp 171-193) from argument `curr_arg_index`
on, `args` being the arguments not yet looked at.  The result is `none` when
an argument could not be parsed (`return 1`), and otherwise the options with
the index at which the loop stopped, which `main` takes as the index of the
first file name. -/
def flag_loop_from : List (List Char) → Nat → Options → Option (Options × Nat)
  | [], curr_arg_index, o => some (o, curr_arg_index)
  | curr_arg_str :: rest, curr_arg_index, o =>
    if StringUtils.startsWith curr_arg_str "--take_natural_log".toList then
      match StringUtils.parseArg StringUtils.extract_bool curr_arg_str
          "--take_natural_log".toList with
      | none => none
      | some v => flag_loop_from rest (curr_arg_index + 1) { o with take_log := v }
    else if StringUtils.startsWith curr_arg_str "--whiten_data".toList then
      match StringUtils.parseArg StringUtils.extract_bool curr_arg_str
          "--whiten_data".toList with
      | none => none
      | some v => flag_loop_from rest (curr_arg_index + 1) { o with whiten_data := v }
    else if StringUtils.startsWith curr_arg_str "--scale_covariances".toList then
      match StringUtils.parseArg StringUtils.extract_bool curr_arg_str
          "--scale_covariances".toList with
      | none => none
      | some v => flag_loop_from rest (curr_arg_index + 1) { o with scale_covariances := v }
    else if StringUtils.startsWith curr_arg_str "--whiten_before_log".toList then
      match StringUtils.parseArg StringUtils.extract_bool curr_arg_str
          "--whiten_before_log".toList with
      | none => none
      | some v => flag_loop_from rest (curr_arg_index + 1) { o with whiten_before_log := v }
    else if StringUtils.startsWith curr_arg_str "--num_channels".toList then
      match StringUtils.parseArg StringUtils.extract_int curr_arg_str
          "--num_channels".toList with
      | none => none
      | some v => flag_loop_from rest (curr_arg_index + 1) { o with num_color_channels := v }
    else
      -- There are no optional flags left to read.
      some (o, curr_arg_index)

/-- The start of `main` (main.cpp 138-194) on the argument vector `argv`:
fewer than three arguments print the usage text and return 1 (`none`);
otherwise the flag loop runs from `argv[1]` with the default options. -/
def parse_command_line (argv : List (List Char)) : Option (Options × Nat) :=
  if argv.length < 3 then none
  else flag_loop_from (argv.drop 1) 1 {}

/-- The option names that the usage text of `main` prints (main.cpp 154-159). -/
def usage_options : List (List Char) :=
  ["--take_natural_log".toList, "--whiten_data".toList, "--scale_covariances".toList,
   "--whiten_before_log".toList, "--num_color_channels".toList]

/-! ### A scalar type with a NaN

The definitions of the engine use only the operations of the source on
`double`, so they run on any type that has these operations.  `Dbl` is such a
type with a NaN: exact rational values and one NaN that every operation
propagates and that compares unequal to everything, itself included.
Infinities are not represented; a division by zero yields the NaN. -/

/-- Exact rational values together with one NaN. -/
inductive Dbl where
  | nan : Dbl
  | num : ℚ → Dbl
deriving DecidableEq

namespace Dbl

/-- Apply an operation on the values; a NaN argument gives NaN. -/
def lift2 (op : ℚ → ℚ → ℚ) : Dbl → Dbl → Dbl
  | num a, num b => num (op a b)
  | _, _ => nan

/-- Division; NaN for a NaN argument and for a zero divisor. -/
def divide : Dbl → Dbl → Dbl
  | num a, num b => if b = 0 then nan else num (a / b)
  | _, _ => nan

/-- Negation. -/
def negate : Dbl → Dbl
  | num a => num (-a)
  | nan => nan

/-- The comparison `<`: false when an argument is NaN. -/
def less : Dbl → Dbl → Bool
  | num a, num b => decide (a < b)
  | _, _ => false

/-- The comparison `==`: false when an argument is NaN. -/
def equal : Dbl → Dbl → Bool
  | num a, num b => decide (a = b)
  | _, _ => false

instance : Zero Dbl := ⟨num 0⟩

instance : One Dbl := ⟨num 1⟩

instance : NatCast Dbl := ⟨fun n => num n⟩

instance : Add Dbl := ⟨lift2 (· + ·)⟩

instance : Sub Dbl := ⟨lift2 (· - ·)⟩

instance : Mul Dbl := ⟨lift2 (· * ·)⟩

instance : Div Dbl := ⟨divide⟩

instance : Neg Dbl := ⟨negate⟩

instance : LT Dbl := ⟨fun x y => less x y = true⟩

instance : DecidableRel (fun (x y : Dbl) => x < y) :=
  fun x y => inferInstanceAs (Decidable (less x y = true))

instance : BEq Dbl := ⟨equal⟩

end Dbl

/-- Two files of dimension 2 without logarithm, whitening and scaling; the
second file holds a NaN, so the dot product of the pair `(1, 0)` is NaN. -/
def run_with_nan : Run Dbl :=
  { DONT_USE_BLAS := false,
    log := fun x => x,
    take_log := false,
    whiten_data := false,
    scale_covariances := false,
    whiten_before_log := true,
    matrix_row_size := 2,
    in_files := [[Dbl.num 1, Dbl.num 2], [Dbl.num 3, Dbl.nan]] }

/-- The same run with the NaN replaced by 4. -/
def run_without_nan : Run Dbl :=
  { run_with_nan with in_files := [[Dbl.num 1, Dbl.num 2], [Dbl.num 3, Dbl.num 4]] }

/-- The matrix `[[5, 11], [11, 25]]` of `run_without_nan` with the counters
and the report of its three dot products. -/
def outcome_without_nan : Outcome Dbl :=
  { mean_buf := [Dbl.num 0, Dbl.num 0],
    covariance_matrix :=
      { N := 2, data := [Dbl.num 5, Dbl.num 11, Dbl.num 11, Dbl.num 25] },
    count := 3,
    count_max := 3,
    printed := [0, 33, 66] }

/-- The state of `run_with_nan` when the column loop of row 1 starts: the
row buffer holds the second file, with its NaN, and the cell `(0, 0)` holds
the first dot product. -/
def state_with_nan : LoopState Dbl :=
  { buf_a := [Dbl.num 3, Dbl.nan],
    buf_b := [Dbl.num 1, Dbl.num 2],
    covariance_matrix :=
      { N := 2, data := [Dbl.num 5, Dbl.num (-999), Dbl.num (-999), Dbl.num (-999)] },
    count := 1,
    prev_perc := 0,
    printed := [0] }

/-- One file of dimension 0 (the flag `--num_channels=0` gives
`matrix_row_size = 0`), without logarithm and whitening, in the build and
with the scaling selected by the arguments. -/
def run_dimension_zero (DONT_USE_BLAS scale_covariances : Bool) : Run Dbl :=
  { DONT_USE_BLAS := DONT_USE_BLAS,
    log := fun x => x,
    take_log := false,
    whiten_data := false,
    scale_covariances := scale_covariances,
    whiten_before_log := true,
    matrix_row_size := 0,
    in_files := [[]] }

/-- The state in which `main` starts the covariance loop of
`run_dimension_zero`: empty buffers, one cell with the sentinel. -/
def start_dimension_zero : LoopState Dbl :=
  { buf_a := [],
    buf_b := [],
    covariance_matrix := { N := 1, data := [Dbl.num (-999)] },
    count := 0,
    prev_perc := -REQ_PERC_JUMP_FOR_UPDATE * 2,
    printed := [] }

/-! ### A scalar type with rounding

`Binary64` runs the definitions in rounded arithmetic: a value is a rational
and the result of every operation is rounded by `to_double`.  There is no NaN
and no infinity on this type; a division by zero, which no run evaluated on
it performs, yields zero. -/

/-- A finite `double`: a rational, rounded after every operation. -/
structure Binary64 where
  val : ℚ
deriving DecidableEq

namespace Binary64

instance : Zero Binary64 := ⟨⟨0⟩⟩

instance : One Binary64 := ⟨⟨1⟩⟩

instance : NatCast Binary64 := ⟨fun n => ⟨to_double n⟩⟩

instance : Add Binary64 := ⟨fun x y => ⟨to_double (x.val + y.val)⟩⟩

instance : Sub Binary64 := ⟨fun x y => ⟨to_double (x.val - y.val)⟩⟩

instance : Mul Binary64 := ⟨fun x y => ⟨to_double (x.val * y.val)⟩⟩

instance : Div Binary64 := ⟨fun x y => ⟨to_double (x.val / y.val)⟩⟩

instance : Neg Binary64 := ⟨fun x => ⟨-x.val⟩⟩

instance : LT Binary64 := ⟨fun x y => x.val < y.val⟩

instance : DecidableRel (fun (x y : Binary64) => x < y) :=
  fun x y => inferInstanceAs (Decidable (x.val < y.val))

instance : BEq Binary64 := ⟨fun x y => decide (x.val = y.val)⟩

end Binary64

/-- The `double` written `0.7`: the value nearest to 7/10. -/
def seven_tenths : Binary64 := ⟨to_double (7 / 10)⟩

/-- Three copies of the vector `[0.7]` of dimension 1 with whitening, without
logarithm and scaling, in the build selected by the argument. -/
def run_seven_tenths (DONT_USE_BLAS : Bool) : Run Binary64 :=
  { DONT_USE_BLAS := DONT_USE_BLAS,
    log := fun x => x,
    take_log := false,
    whiten_data := true,
    scale_covariances := false,
    whiten_before_log := true,
    matrix_row_size := 1,
    in_files := [[seven_tenths], [seven_tenths], [seven_tenths]] }

/-! ## Loops -/

section Loops

variable {σ : Type}

theorem forLoop_zero (body : Nat → σ → σ) (s : σ) : forLoop 0 body s = s := rfl

theorem forLoop_succ (n : Nat) (body : Nat → σ → σ) (s : σ) :
    forLoop (n + 1) body s = body n (forLoop n body s) := rfl

theorem forLoopM_zero (body : Nat → σ → Option σ) (s : σ) : forLoopM 0 body s = some s := rfl

theorem forLoopM_succ (n : Nat) (body : Nat → σ → Option σ) (s : σ) :
    forLoopM (n + 1) body s = (forLoopM n body s).bind (body n) := rfl

/-- Invariant rule for a loop whose body may abort: when every iteration
started in a state satisfying the invariant completes and re-establishes it,
the loop completes in a state satisfying the invariant. -/
theorem forLoopM_invariant (Inv : Nat → σ → Prop) (n : Nat) (body : Nat → σ → Option σ)
    (s : σ) (h0 : Inv 0 s)
    (hstep : ∀ i t, i < n → Inv i t → ∃ t', body i t = some t' ∧ Inv (i + 1) t') :
    ∃ t, forLoopM n body s = some t ∧ Inv n t := by
  induction n with
  | zero => exact ⟨s, rfl, h0⟩
  | succ k ih =>
    obtain ⟨t, ht, hI⟩ := ih (fun i t hi hInv => hstep i t (Nat.lt_succ_of_lt hi) hInv)
    obtain ⟨t', ht', hI'⟩ := hstep k t (Nat.lt_succ_self k) hI
    exact ⟨t', by rw [forLoopM_succ, ht]; exact ht', hI'⟩

/-- Invariant rule for a loop whose body always completes. -/
theorem forLoop_invariant (Inv : Nat → σ → Prop) (n : Nat) (body : Nat → σ → σ)
    (s : σ) (h0 : Inv 0 s)
    (hstep : ∀ i t, i < n → Inv i t → Inv (i + 1) (body i t)) :
    Inv n (forLoop n body s) := by
  induction n with
  | zero => exact h0
  | succ k ih =>
    rw [forLoop_succ]
    exact hstep k _ (Nat.lt_succ_self k)
      (ih (fun i t hi hInv => hstep i t (Nat.lt_succ_of_lt hi) hInv))

end Loops

/-! ## Element-wise loops over a buffer -/

section Pointwise

variable {α : Type} [Zero α]

theorem getD_eq_of_getElem? {a : List α} {j : Nat} {x : α} (h : a[j]? = some x) :
    a.getD j 0 = x := by
  rw [List.getD_eq_getElem?_getD, h]; rfl

/-- An in-place loop `a[i] = g(i, a[i])` over `i < n` changes the cells below
`n` and no other cell. -/
theorem forLoop_set_getElem? (g : Nat → α → α) (n : Nat) (a : List α) (j : Nat) :
    (forLoop n (fun i a => a.set i (g i (a.getD i 0))) a)[j]? =
      if j < n then a[j]?.map (g j) else a[j]? := by
  induction n with
  | zero => simp [forLoop_zero]
  | succ k ih =>
    rw [forLoop_succ, List.getElem?_set]
    by_cases hkj : k = j
    · subst hkj
      simp only [if_true, Nat.lt_succ_self] at ih ⊢
      simp only [lt_irrefl, if_false] at ih
      by_cases hlen : k < (forLoop k (fun i a => a.set i (g i (a.getD i 0))) a).length
      · rw [if_pos hlen]
        obtain ⟨x, hx⟩ : ∃ x, (forLoop k (fun i a => a.set i (g i (a.getD i 0))) a)[k]? = some x :=
          ⟨_, List.getElem?_eq_getElem hlen⟩
        rw [getD_eq_of_getElem? hx]
        rw [hx] at ih
        rw [← ih]; rfl
      · rw [if_neg hlen]
        have hnone : (forLoop k (fun i a => a.set i (g i (a.getD i 0))) a)[k]? = none :=
          List.getElem?_eq_none (not_lt.mp hlen)
        rw [hnone] at ih
        rw [← ih]; rfl
    · rw [if_neg hkj, ih]
      by_cases hjk : j < k
      · rw [if_pos hjk, if_pos (Nat.lt_succ_of_lt hjk)]
      · have : ¬ j < k + 1 := by omega
        rw [if_neg hjk, if_neg this]

theorem forLoop_set_length (g : Nat → α → α) (n : Nat) (a : List α) :
    (forLoop n (fun i a => a.set i (g i (a.getD i 0))) a).length = a.length := by
  induction n with
  | zero => rfl
  | succ k ih => rw [forLoop_succ, List.length_set, ih]

theorem forLoop_set_getD (g : Nat → α → α) (n : Nat) (a : List α) (j : Nat)
    (hj : j < a.length) :
    (forLoop n (fun i a => a.set i (g i (a.getD i 0))) a).getD j 0 =
      if j < n then g j (a.getD j 0) else a.getD j 0 := by
  have hx : a[j]? = some a[j] := List.getElem?_eq_getElem hj
  rw [List.getD_eq_getElem?_getD, forLoop_set_getElem?, getD_eq_of_getElem? hx, hx]
  split_ifs <;> rfl

/-- An in-place loop `a[i] = g(i, a[i])` over `i < n`, with `n` within the
buffer: cell `j` holds the new value below `n` and is untouched from `n` on. -/
theorem forLoop_set_cell (g : Nat → α → α) (n : Nat) (a : List α) (j : Nat)
    (hn : n ≤ a.length) :
    (forLoop n (fun i a => a.set i (g i (a.getD i 0))) a)[j]? =
      if j < n then some (g j (a.getD j 0)) else a[j]? := by
  rw [forLoop_set_getElem?]
  by_cases hj : j < n
  · have hx : a[j]? = some a[j] := List.getElem?_eq_getElem (by omega)
    rw [if_pos hj, if_pos hj, getD_eq_of_getElem? hx, hx]
    rfl
  · rw [if_neg hj, if_neg hj]

end Pointwise

/-! ## Lengths of the buffers -/

section VectorLengths

variable {α : Type}

theorem add_length [Zero α] [One α] [Add α] [Mul α]
    (f : Bool) (a b : List α) (N : Nat) : (add f a b N).length = a.length := by
  cases f
  · exact forLoop_set_length (fun i x => 1 * b.getD i 0 + x) N a
  · exact forLoop_set_length (fun i x => x + b.getD i 0) N a

theorem sub_length [Zero α] [One α] [Add α] [Sub α] [Mul α] [Neg α]
    (f : Bool) (a b : List α) (N : Nat) : (sub f a b N).length = a.length := by
  cases f
  · exact forLoop_set_length (fun i x => -1 * b.getD i 0 + x) N a
  · exact forLoop_set_length (fun i x => x - b.getD i 0) N a

theorem scalar_mult_length [Zero α] [Mul α]
    (f : Bool) (a : List α) (c : α) (N : Nat) :
    (scalar_mult f a c N).length = a.length := by
  cases f
  · exact forLoop_set_length (fun _ x => x * c) N a
  · exact forLoop_set_length (fun _ x => x * c) N a

/-- The loop body of `component_wise_log` assigns `log_elem log a[i]` to `a[i]`. -/
theorem component_wise_log_eq [Zero α] [One α] [Div α] [Neg α] [NatCast α] [LT α]
    [DecidableRel (fun (x y : α) => x < y)] [BEq α]
    (log : α → α) (a : List α) (N : Nat) :
    component_wise_log log a N true =
      forLoop N (fun i a => a.set i (log_elem log (a.getD i 0))) a := by
  have hbody : (fun (i : Nat) (a : List α) =>
      if fabs (bool_to_double (decide (a.getD i 0 < SMALL_VAL)) : α) != 0 then
        a.set i 0
      else
        if a.getD i 0 > 0 then
          a.set i (log (a.getD i 0))
        else
          a.set i (-(log (-(a.getD i 0))))) =
      fun i a => a.set i (log_elem log (a.getD i 0)) := by
    funext i a
    unfold log_elem
    split_ifs <;> rfl
  unfold component_wise_log
  simp only [Bool.not_true, Bool.false_eq_true, if_false]
  rw [hbody]

theorem component_wise_log_false [Zero α] [One α] [Div α] [Neg α] [NatCast α] [LT α]
    [DecidableRel (fun (x y : α) => x < y)] [BEq α]
    (log : α → α) (a : List α) (N : Nat) :
    component_wise_log log a N false = a := by
  simp [component_wise_log]

theorem component_wise_log_length [Zero α] [One α] [Div α] [Neg α] [NatCast α] [LT α]
    [DecidableRel (fun (x y : α) => x < y)] [BEq α]
    (log : α → α) (a : List α) (N : Nat) (take_log : Bool) :
    (component_wise_log log a N take_log).length = a.length := by
  cases take_log
  · rw [component_wise_log_false]
  · rw [component_wise_log_eq]
    exact forLoop_set_length (fun _ x => log_elem log x) N a

theorem summand_length [Zero α] [One α] [Div α] [Neg α] [NatCast α] [LT α]
    [DecidableRel (fun (x y : α) => x < y)] [BEq α]
    (R : Run α) (v : List α) : (summand R v).length = v.length := by
  unfold summand
  split
  · rfl
  · rw [component_wise_log_length]

end VectorLengths

/-! ## The vector operations, element by element -/

section VectorLemmas

variable {α : Type} [LinearOrderedField α]

/-- An accumulation loop is the finite sum of its terms. -/
theorem forLoop_accum (f : Nat → α) (n : Nat) :
    forLoop n (fun i accum => accum + f i) (0 : α) = ∑ i in Finset.range n, f i := by
  induction n with
  | zero => simp [forLoop_zero]
  | succ k ih => rw [forLoop_succ, ih, Finset.sum_range_succ]

theorem add_getD (f : Bool) (a b : List α) (N j : Nat) (hj : j < a.length) :
    (add f a b N).getD j 0 = if j < N then a.getD j 0 + b.getD j 0 else a.getD j 0 := by
  cases f
  · have h : (add false a b N).getD j 0 =
        if j < N then 1 * b.getD j 0 + a.getD j 0 else a.getD j 0 :=
      forLoop_set_getD (fun i x => 1 * b.getD i 0 + x) N a j hj
    rw [h, one_mul, add_comm]
  · exact forLoop_set_getD (fun i x => x + b.getD i 0) N a j hj

theorem sub_getD (f : Bool) (a b : List α) (N j : Nat) (hj : j < a.length) :
    (sub f a b N).getD j 0 = if j < N then a.getD j 0 - b.getD j 0 else a.getD j 0 := by
  cases f
  · have h : (sub false a b N).getD j 0 =
        if j < N then -1 * b.getD j 0 + a.getD j 0 else a.getD j 0 :=
      forLoop_set_getD (fun i x => -1 * b.getD i 0 + x) N a j hj
    have e : -1 * b.getD j 0 + a.getD j 0 = a.getD j 0 - b.getD j 0 := by ring
    rw [h, e]
  · exact forLoop_set_getD (fun i x => x - b.getD i 0) N a j hj

theorem scalar_mult_getD (f : Bool) (a : List α) (c : α) (N j : Nat) (hj : j < a.length) :
    (scalar_mult f a c N).getD j 0 = if j < N then a.getD j 0 * c else a.getD j 0 := by
  cases f
  · exact forLoop_set_getD (fun _ x => x * c) N a j hj
  · exact forLoop_set_getD (fun _ x => x * c) N a j hj

theorem component_wise_log_getD (log : α → α) (a : List α) (N j : Nat) (hj : j < a.length) :
    (component_wise_log log a N true).getD j 0 =
      if j < N then log_elem log (a.getD j 0) else a.getD j 0 := by
  rw [component_wise_log_eq]
  exact forLoop_set_getD (fun _ x => log_elem log x) N a j hj

/-- The test `fabs(x < SMALL_VAL)` holds exactly when `x < SMALL_VAL`, so the
element is zeroed below `SMALL_VAL` and logged otherwise. -/
theorem fabs_bool_to_double (b : Bool) : (fabs (bool_to_double b : α) != 0) = b := by
  have h : ¬ ((1 : α) < 0) := not_lt.mpr zero_le_one
  cases b
  · simp [fabs, bool_to_double]
  · simp [fabs, bool_to_double, h]

theorem log_elem_eq (log : α → α) (x : α) :
    log_elem log x = if x < SMALL_VAL then 0 else log x := by
  unfold log_elem
  rw [fabs_bool_to_double]
  by_cases h : x < SMALL_VAL
  · simp [h]
  · have hpos : (0 : α) < SMALL_VAL := by unfold SMALL_VAL; positivity
    have hx : 0 < x := lt_of_lt_of_le hpos (not_lt.mp h)
    simp [h, hx]

theorem dot_eq (f : Bool) (a b : List α) (N : Nat) :
    dot f a b N = if f then inner_product a b N / (N : α) else inner_product a b N := by
  cases f
  · exact forLoop_accum (fun i => a.getD i 0 * b.getD i 0) N
  · show forLoop N (fun i accum => accum + a.getD i 0 * b.getD i 0) (0 : α) / (N : α) = _
    rw [forLoop_accum (fun i => a.getD i 0 * b.getD i 0) N]
    rfl

theorem inner_product_comm (a b : List α) (N : Nat) :
    inner_product a b N = inner_product b a N := by
  unfold inner_product
  exact Finset.sum_congr rfl (fun i _ => mul_comm _ _)

theorem dot_comm (f : Bool) (a b : List α) (N : Nat) : dot f a b N = dot f b a N := by
  rw [dot_eq, dot_eq, inner_product_comm]

theorem IsNaN_eq_false (val : α) : IsNaN val = false := by
  simp [IsNaN]

theorem HasANaN_eq_false (buf : List α) (N : Nat) : HasANaN buf N = false := by
  unfold HasANaN
  induction N with
  | zero => rfl
  | succ k ih => rw [forLoop_succ, ih, IsNaN_eq_false]; rfl

end VectorLemmas

/-! ## The matrix container -/

section CovMatLemmas

variable {α : Type}

theorem cell_index_lt {N r c : Nat} (hr : r < N) (hc : c < N) : r * N + c < N * N := by
  have h : (r + 1) * N ≤ N * N := Nat.mul_le_mul_right N hr
  have e : (r + 1) * N = r * N + N := Nat.succ_mul r N
  omega

theorem cell_index_inj {N r c i j : Nat} (hc : c < N) (hj : j < N)
    (h : r * N + c = i * N + j) : r = i ∧ c = j := by
  have hN : 0 < N := Nat.lt_of_le_of_lt (Nat.zero_le c) hc
  have h1 : (r * N + c) / N = r := by
    rw [Nat.add_comm, Nat.add_mul_div_right _ _ hN, Nat.div_eq_of_lt hc, Nat.zero_add]
  have h2 : (i * N + j) / N = i := by
    rw [Nat.add_comm, Nat.add_mul_div_right _ _ hN, Nat.div_eq_of_lt hj, Nat.zero_add]
  have hri : r = i := by rw [← h1, ← h2, h]
  subst hri
  exact ⟨rfl, Nat.add_left_cancel h⟩

theorem CovMat.set_eq_some (m : CovMat α) (r c : Nat) (v : α) (hr : r < m.N) (hc : c < m.N) :
    m.set r c v = some { N := m.N, data := m.data.set (r * m.N + c) v } := by
  simp [CovMat.set, hr, hc]

theorem CovMat.get_eq (m : CovMat α) (i j : Nat) (hi : i < m.N) (hj : j < m.N) :
    m.get i j = m.data[i * m.N + j]? := by
  simp [CovMat.get, hi, hj]

/-- Reading cell `(i, j)` after cell `(r, c)` was assigned `v`: the new value
at `(r, c)`, the old value anywhere else. -/
theorem CovMat.get_after_set (m : CovMat α) (hwf : m.data.length = m.N * m.N)
    (r c i j : Nat) (v : α) (hr : r < m.N) (hc : c < m.N) (hi : i < m.N) (hj : j < m.N) :
    ({ N := m.N, data := m.data.set (r * m.N + c) v } : CovMat α).get i j =
      if r = i ∧ c = j then some v else m.get i j := by
  have e1 : ({ N := m.N, data := m.data.set (r * m.N + c) v } : CovMat α).get i j =
      (m.data.set (r * m.N + c) v)[i * m.N + j]? := CovMat.get_eq _ i j hi hj
  rw [e1, CovMat.get_eq m i j hi hj, List.getElem?_set]
  by_cases h : r * m.N + c = i * m.N + j
  · have hrc := cell_index_inj hc hj h
    have hlt : r * m.N + c < m.data.length := by rw [hwf]; exact cell_index_lt hr hc
    rw [if_pos h, if_pos hlt, if_pos hrc]
  · have hne : ¬ (r = i ∧ c = j) := fun ⟨h1, h2⟩ => h (by rw [h1, h2])
    rw [if_neg h, if_neg hne]

theorem read_eq (file buf : List α) (n : Nat) (hfile : file.length = n) (hbuf : buf.length = n) :
    read file buf n = file := by
  unfold read
  have h1 : file.take n = file := List.take_of_length_le (le_of_eq hfile)
  rw [h1, List.drop_eq_nil_of_le (by omega), List.append_nil]

theorem input_length (R : Run α) (hlen : ∀ f ∈ R.in_files, f.length = R.matrix_row_size)
    (i : Nat) (hi : i < R.in_files.length) : (input R i).length = R.matrix_row_size := by
  apply hlen
  unfold input
  rw [List.getD_eq_getElem _ _ hi]
  exact List.getElem_mem hi

end CovMatLemmas

/-! ## The transform and the mean pass on any scalars -/

section LoadGeneric

variable {α : Type} [Zero α] [One α] [Add α] [Sub α] [Mul α] [Div α] [Neg α] [NatCast α]
  [LT α] [DecidableRel (fun (x y : α) => x < y)] [BEq α]

theorem T_length (R : Run α) (mean v : List α) : (T R mean v).length = v.length := by
  unfold T
  split
  · rw [component_wise_log_length, sub_length]
  · rw [sub_length, component_wise_log_length]
  · rw [component_wise_log_length]

theorem load_row_eq (R : Run α) (mean buf : List α) (r : Nat)
    (hfile : (input R r).length = R.matrix_row_size) (hbuf : buf.length = R.matrix_row_size) :
    load_row R mean r buf = T R mean (input R r) := by
  unfold load_row T
  have h : read (R.in_files.getD r []) buf R.matrix_row_size = input R r :=
    read_eq _ _ _ hfile hbuf
  simp only [h]
  cases R.whiten_data <;> cases R.whiten_before_log <;> rfl

theorem load_column_eq (R : Run α) (mean buf : List α) (c : Nat)
    (hfile : (input R c).length = R.matrix_row_size) (hbuf : buf.length = R.matrix_row_size) :
    load_column R mean c buf = T R mean (input R c) := by
  unfold load_column T
  have h : read (R.in_files.getD c []) buf R.matrix_row_size = input R c :=
    read_eq _ _ _ hfile hbuf
  simp only [h]
  cases R.whiten_data <;> cases R.whiten_before_log <;> rfl

theorem stored_entry_of_le (R : Run α) (mean : List α) (r c : Nat) (hcr : c ≤ r) :
    stored_entry R mean r c = spec_entry R (T R mean (input R r)) (T R mean (input R c)) ∧
    stored_entry R mean c r = spec_entry R (T R mean (input R r)) (T R mean (input R c)) := by
  unfold stored_entry
  rw [max_eq_left hcr, min_eq_right hcr, max_eq_right hcr, min_eq_left hcr]
  exact ⟨rfl, rfl⟩

theorem stored_entry_symm (R : Run α) (mean : List α) (i j : Nat) :
    stored_entry R mean i j = stored_entry R mean j i := by
  unfold stored_entry
  rw [max_comm, min_comm]

end LoadGeneric

section MeanGeneric

variable {α : Type} [Zero α] [One α] [Add α] [Mul α] [Div α] [Neg α] [NatCast α]
  [LT α] [DecidableRel (fun (x y : α) => x < y)] [BEq α]

/-- The content of `buf_a` that the mean pass adds for file `i`: the logged
vector when whitening follows the logarithm, the raw vector otherwise. -/
theorem mean_body_eq (R : Run α) (i : Nat) (b : Buffers α)
    (hfile : (input R i).length = R.matrix_row_size)
    (ha : b.buf_a.length = R.matrix_row_size) :
    mean_body R i b =
      { mean_buf := add R.DONT_USE_BLAS b.mean_buf (summand R (input R i)) R.matrix_row_size,
        buf_a := summand R (input R i), buf_b := b.buf_b } := by
  have h : read (R.in_files.getD i []) b.buf_a R.matrix_row_size = input R i :=
    read_eq _ _ _ hfile ha
  unfold mean_body summand
  simp only [h]
  cases R.whiten_before_log <;> rfl

/-- The buffers keep the length `matrix_row_size` through the loop of the
mean pass. -/
theorem mean_loop_lengths (R : Run α) (hlen : ∀ f ∈ R.in_files, f.length = R.matrix_row_size)
    (k : Nat) (hk : k ≤ R.in_files.length) :
    (forLoop k (mean_body R) (zero_buffers R.matrix_row_size)).mean_buf.length
        = R.matrix_row_size ∧
    (forLoop k (mean_body R) (zero_buffers R.matrix_row_size)).buf_a.length
        = R.matrix_row_size ∧
    (forLoop k (mean_body R) (zero_buffers R.matrix_row_size)).buf_b.length
        = R.matrix_row_size := by
  induction k with
  | zero => simp [forLoop_zero, zero_buffers]
  | succ i ih =>
    obtain ⟨hm, ha, hb⟩ := ih (Nat.le_of_succ_le hk)
    have hfile := input_length R hlen i hk
    rw [forLoop_succ, mean_body_eq R i _ hfile ha]
    refine ⟨?_, ?_, hb⟩
    · show (add _ _ _ _).length = _
      rw [add_length]; exact hm
    · show (summand R (input R i)).length = _
      rw [summand_length]; exact hfile

/-- The buffers keep the length `matrix_row_size` through the mean pass. -/
theorem mean_pass_lengths (R : Run α) (hlen : ∀ f ∈ R.in_files, f.length = R.matrix_row_size) :
    (mean_pass R (zero_buffers R.matrix_row_size)).mean_buf.length = R.matrix_row_size ∧
    (mean_pass R (zero_buffers R.matrix_row_size)).buf_a.length = R.matrix_row_size ∧
    (mean_pass R (zero_buffers R.matrix_row_size)).buf_b.length = R.matrix_row_size := by
  unfold mean_pass
  by_cases hw : R.whiten_data = true
  · rw [if_pos hw]
    obtain ⟨hm, ha, hb⟩ := mean_loop_lengths R hlen R.in_files.length (le_refl _)
    refine ⟨?_, ha, hb⟩
    show (scalar_mult _ _ _ _).length = _
    rw [scalar_mult_length]; exact hm
  · rw [if_neg hw]; simp [zero_buffers]

end MeanGeneric

/-! ## Loading and transforming a buffer -/

section LoadLemmas

variable {α : Type} [LinearOrderedField α]

/-- One iteration of the column loop: it completes, leaves the transformed
column vector in `buf_b`, assigns the entry to the cells `(r, c)` and
`(c, r)` and advances the counter. -/
theorem column_body_eq (R : Run α) (mean : List α) (count_max r c : Nat) (s : LoopState α)
    (hr : r < s.covariance_matrix.N) (hc : c < s.covariance_matrix.N)
    (hfile : (input R c).length = R.matrix_row_size)
    (hbuf : s.buf_b.length = R.matrix_row_size) :
    ∃ t, column_body R mean count_max r c s = some t ∧
      t.buf_a = s.buf_a ∧ t.buf_b = T R mean (input R c) ∧ t.count = s.count + 1 ∧
      t.covariance_matrix =
        { N := s.covariance_matrix.N,
          data := (s.covariance_matrix.data.set (r * s.covariance_matrix.N + c)
                    (spec_entry R s.buf_a (T R mean (input R c)))).set
                    (c * s.covariance_matrix.N + r)
                    (spec_entry R s.buf_a (T R mean (input R c))) } := by
  unfold column_body
  simp only [load_column_eq R mean s.buf_b c hfile hbuf, IsNaN_eq_false, Bool.false_eq_true,
    if_false]
  simp only [CovMat.set, hr, hc, if_true, Option.some_bind]
  refine ⟨_, rfl, rfl, rfl, rfl, ?_⟩
  simp only [spec_entry]

/-- One iteration of the column loop on a matrix of `N * N` cells: it
completes, advances the counter, and the cells `(r, c)` and `(c, r)` then
read the entry computed by `dot` from the two buffers it leaves. -/
theorem column_body_cell (R : Run α) (mean : List α) (count_max r c : Nat) (s : LoopState α)
    (hwf : s.covariance_matrix.data.length = s.covariance_matrix.N * s.covariance_matrix.N)
    (hr : r < s.covariance_matrix.N) (hc : c < s.covariance_matrix.N)
    (hfile : (input R c).length = R.matrix_row_size)
    (hbuf : s.buf_b.length = R.matrix_row_size) :
    ∃ t, column_body R mean count_max r c s = some t ∧
      t.buf_a = s.buf_a ∧ t.buf_b = T R mean (input R c) ∧ t.count = s.count + 1 ∧
      t.covariance_matrix.get r c = some (spec_entry R t.buf_a t.buf_b) ∧
      t.covariance_matrix.get c r = some (spec_entry R t.buf_a t.buf_b) := by
  obtain ⟨t, ht, ha, hb, hcount, hm⟩ := column_body_eq R mean count_max r c s hr hc hfile hbuf
  refine ⟨t, ht, ha, hb, hcount, ?_⟩
  have e1 : ∀ i j, i < s.covariance_matrix.N → j < s.covariance_matrix.N →
      t.covariance_matrix.get i j =
        if c = i ∧ r = j then some (spec_entry R s.buf_a (T R mean (input R c)))
        else if r = i ∧ c = j then some (spec_entry R s.buf_a (T R mean (input R c)))
        else s.covariance_matrix.get i j := by
    intro i j hi hj
    rw [hm]
    have e2 := CovMat.get_after_set
      ({ N := s.covariance_matrix.N,
         data := s.covariance_matrix.data.set (r * s.covariance_matrix.N + c)
           (spec_entry R s.buf_a (T R mean (input R c))) } : CovMat α)
      (by simp only [List.length_set]; exact hwf) c r i j
      (spec_entry R s.buf_a (T R mean (input R c))) hc hr hi hj
    have e3 := CovMat.get_after_set s.covariance_matrix hwf r c i j
      (spec_entry R s.buf_a (T R mean (input R c))) hr hc hi hj
    rw [e2, e3]
  rw [ha, hb, e1 r c hr hc, e1 c r hc hr]
  constructor
  · by_cases h : c = r ∧ r = c
    · rw [if_pos h]
    · rw [if_neg h, if_pos ⟨rfl, rfl⟩]
  · rw [if_pos ⟨rfl, rfl⟩]

end LoadLemmas

/-! ## The mean pass and the covariance loop -/

section EngineLemmas

variable {α : Type} [LinearOrderedField α]

theorem spec_entry_comm (R : Run α) (x y : List α) : spec_entry R x y = spec_entry R y x := by
  unfold spec_entry
  rw [dot_comm]

/-- The stored entry is the entry of the specification for the pair in the
order it is asked for, because `dot` is commutative. -/
theorem stored_entry_eq (R : Run α) (mean : List α) (i j : Nat) :
    stored_entry R mean i j = spec_entry R (T R mean (input R i)) (T R mean (input R j)) := by
  rcases le_total j i with h | h
  · exact (stored_entry_of_le R mean i j h).1
  · rw [(stored_entry_of_le R mean j i h).2, spec_entry_comm]

/-- The column loop of row `r`: it completes, and afterwards every cell of
the leading `(r + 1) × (r + 1)` block holds its stored entry. -/
theorem column_loop_spec (R : Run α) (mean : List α) (count_max r : Nat)
    (hlen : ∀ f ∈ R.in_files, f.length = R.matrix_row_size)
    (hr : r < R.in_files.length) (s : LoopState α)
    (hN : s.covariance_matrix.N = R.in_files.length)
    (hwf : s.covariance_matrix.data.length = R.in_files.length * R.in_files.length)
    (ha : s.buf_a = T R mean (input R r))
    (hb : s.buf_b.length = R.matrix_row_size)
    (hold : ∀ i j, i < r → j < r →
      s.covariance_matrix.get i j = some (stored_entry R mean i j)) :
    ∃ t, forLoopM (r + 1) (column_body R mean count_max r) s = some t ∧
      t.covariance_matrix.N = R.in_files.length ∧
      t.covariance_matrix.data.length = R.in_files.length * R.in_files.length ∧
      t.buf_a.length = R.matrix_row_size ∧ t.buf_b.length = R.matrix_row_size ∧
      t.count = s.count + (r + 1) ∧
      ∀ i j, i < r + 1 → j < r + 1 →
        t.covariance_matrix.get i j = some (stored_entry R mean i j) := by
  have hloop := forLoopM_invariant
    (fun (c : Nat) (t : LoopState α) =>
      t.covariance_matrix.N = R.in_files.length ∧
      t.covariance_matrix.data.length = R.in_files.length * R.in_files.length ∧
      t.buf_a = T R mean (input R r) ∧ t.buf_b.length = R.matrix_row_size ∧
      t.count = s.count + c ∧
      ∀ i j, i < R.in_files.length → j < R.in_files.length →
        ((i < r ∧ j < r) ∨ (i = r ∧ j < c) ∨ (j = r ∧ i < c)) →
        t.covariance_matrix.get i j = some (stored_entry R mean i j))
    (r + 1) (column_body R mean count_max r) s
    ⟨hN, hwf, ha, hb, rfl, by
      intro i j _ _ h
      rcases h with ⟨h1, h2⟩ | ⟨_, h2⟩ | ⟨_, h2⟩
      · exact hold i j h1 h2
      · exact absurd h2 (Nat.not_lt_zero j)
      · exact absurd h2 (Nat.not_lt_zero i)⟩
    (by
      intro c t hc ⟨tN, twf, ta, tb, tcount, tcells⟩
      have hcr : c ≤ r := Nat.le_of_lt_succ hc
      have hcN : c < R.in_files.length := lt_of_le_of_lt hcr hr
      obtain ⟨t', ht', ha', hb', hcount', hm'⟩ :=
        column_body_eq R mean count_max r c t (by rw [tN]; exact hr) (by rw [tN]; exact hcN)
          (input_length R hlen c hcN) tb
      refine ⟨t', ht', ?_, ?_, ?_, ?_, ?_, ?_⟩
      · rw [hm']; exact tN
      · rw [hm']; simp only [List.length_set]; exact twf
      · rw [ha']; exact ta
      · rw [hb', T_length]; exact input_length R hlen c hcN
      · rw [hcount', tcount]; rfl
      · intro i j hi hj hfill
        have hv := stored_entry_of_le R mean r c hcr
        rw [ta] at hm'
        rw [hm', tN]
        have e2 := CovMat.get_after_set
          ({ N := t.covariance_matrix.N,
             data := t.covariance_matrix.data.set (r * t.covariance_matrix.N + c)
               (spec_entry R (T R mean (input R r)) (T R mean (input R c))) } : CovMat α)
          (by simp only [List.length_set]; rw [twf, tN]) c r i j
          (spec_entry R (T R mean (input R r)) (T R mean (input R c)))
          (by show c < t.covariance_matrix.N; rw [tN]; exact hcN)
          (by show r < t.covariance_matrix.N; rw [tN]; exact hr)
          (by show i < t.covariance_matrix.N; rw [tN]; exact hi)
          (by show j < t.covariance_matrix.N; rw [tN]; exact hj)
        have e1 := CovMat.get_after_set t.covariance_matrix (by rw [twf, tN]) r c i j
          (spec_entry R (T R mean (input R r)) (T R mean (input R c)))
          (by rw [tN]; exact hr) (by rw [tN]; exact hcN)
          (by rw [tN]; exact hi) (by rw [tN]; exact hj)
        simp only [tN] at e1 e2
        rw [e2, e1]
        by_cases h1 : c = i ∧ r = j
        · rw [if_pos h1, ← h1.1, ← h1.2, hv.2]
        · rw [if_neg h1]
          by_cases h2 : r = i ∧ c = j
          · rw [if_pos h2, ← h2.1, ← h2.2, hv.1]
          · rw [if_neg h2]
            apply tcells i j hi hj
            rcases hfill with h | ⟨h3, h4⟩ | ⟨h3, h4⟩
            · exact Or.inl h
            · refine Or.inr (Or.inl ⟨h3, ?_⟩)
              rcases Nat.lt_succ_iff_lt_or_eq.mp h4 with h5 | h5
              · exact h5
              · exact absurd ⟨h3.symm, h5.symm⟩ h2
            · refine Or.inr (Or.inr ⟨h3, ?_⟩)
              rcases Nat.lt_succ_iff_lt_or_eq.mp h4 with h5 | h5
              · exact h5
              · exact absurd ⟨h5.symm, h3.symm⟩ h1)
  obtain ⟨t, ht, tN, twf, ta, tb, tcount, tcells⟩ := hloop
  refine ⟨t, ht, tN, twf, ?_, tb, tcount, ?_⟩
  · rw [ta, T_length]; exact input_length R hlen r hr
  · intro i j hi hj
    have hiN : i < R.in_files.length := by omega
    have hjN : j < R.in_files.length := by omega
    apply tcells i j hiN hjN
    rcases Nat.lt_succ_iff_lt_or_eq.mp hi with h1 | h1
    · rcases Nat.lt_succ_iff_lt_or_eq.mp hj with h2 | h2
      · exact Or.inl ⟨h1, h2⟩
      · exact Or.inr (Or.inr ⟨h2, hi⟩)
    · exact Or.inr (Or.inl ⟨h1, hj⟩)

/-- When `N * N` fits in an `int`, so do the product behind `count_max` and
every cell index `row * N + col`. -/
theorem int_products_in_range (N : Nat) (h : N * N ≤ INT_MAX) :
    N * (N + 1) ≤ INT_MAX ∧ ∀ r c, r < N → c < N → r * N + c ≤ INT_MAX := by
  unfold INT_MAX at *
  have hN : N ≤ 46340 := by
    by_contra hcon
    have h1 : 46341 ≤ N := by omega
    have h2 : 46341 * 46341 ≤ N * N := Nat.mul_le_mul h1 h1
    omega
  refine ⟨?_, fun r c hr hc => ?_⟩
  · have h3 : N * (N + 1) ≤ 46340 * 46341 := Nat.mul_le_mul hN (by omega)
    omega
  · have h4 := cell_index_lt hr hc
    omega

theorem triangle_succ (r : Nat) : r * (r + 1) / 2 + (r + 1) = (r + 1) * (r + 1 + 1) / 2 := by
  have e : (r + 1) * (r + 1 + 1) = r * (r + 1) + 2 * (r + 1) := by ring
  rw [e, Nat.add_mul_div_left _ _ (by decide : 0 < 2)]

/-- The covariance loop: it completes with every cell holding its stored
entry and with the counter at `num_rows * (num_rows + 1) / 2`. -/
theorem covariance_loop_spec (R : Run α) (mean : List α) (count_max : Nat)
    (hlen : ∀ f ∈ R.in_files, f.length = R.matrix_row_size) (s : LoopState α)
    (hN : s.covariance_matrix.N = R.in_files.length)
    (hwf : s.covariance_matrix.data.length = R.in_files.length * R.in_files.length)
    (ha : s.buf_a.length = R.matrix_row_size) (hb : s.buf_b.length = R.matrix_row_size)
    (hcount : s.count = 0) :
    ∃ t, covariance_loop R mean R.in_files.length count_max s = some t ∧
      t.covariance_matrix.N = R.in_files.length ∧
      t.covariance_matrix.data.length = R.in_files.length * R.in_files.length ∧
      t.count = R.in_files.length * (R.in_files.length + 1) / 2 ∧
      ∀ i j, i < R.in_files.length → j < R.in_files.length →
        t.covariance_matrix.get i j = some (stored_entry R mean i j) := by
  have hloop := forLoopM_invariant
    (fun (r : Nat) (t : LoopState α) =>
      t.covariance_matrix.N = R.in_files.length ∧
      t.covariance_matrix.data.length = R.in_files.length * R.in_files.length ∧
      t.buf_a.length = R.matrix_row_size ∧ t.buf_b.length = R.matrix_row_size ∧
      t.count = r * (r + 1) / 2 ∧
      ∀ i j, i < r → j < r → t.covariance_matrix.get i j = some (stored_entry R mean i j))
    R.in_files.length (row_body R mean count_max) s
    ⟨hN, hwf, ha, hb, by rw [hcount], fun i _ hi _ => absurd hi (Nat.not_lt_zero i)⟩
    (by
      intro r t hr ⟨tN, twf, ta, tb, tcount, tcells⟩
      obtain ⟨t', ht', tN', twf', ta', tb', tcount', tcells'⟩ :=
        column_loop_spec R mean count_max r hlen hr
          { t with buf_a := load_row R mean r t.buf_a } tN twf
          (load_row_eq R mean t.buf_a r (input_length R hlen r hr) ta) tb tcells
      refine ⟨t', ht', tN', twf', ta', tb', ?_, tcells'⟩
      rw [tcount']
      show t.count + (r + 1) = _
      rw [tcount, triangle_succ])
  obtain ⟨t, ht, tN, twf, _, _, tcount, tcells⟩ := hloop
  exact ⟨t, ht, tN, twf, tcount, tcells⟩

/-- The engine: for at least one input file, all of the configured length,
and `N * N` within `int`, the run completes; it leaves the mean of the mean
pass, the counter at `count_max = N * (N + 1) / 2`, and in every cell its
stored entry. -/
theorem engine_spec (R : Run α) (hN : 0 < R.in_files.length)
    (hint : R.in_files.length * R.in_files.length ≤ INT_MAX)
    (hlen : ∀ f ∈ R.in_files, f.length = R.matrix_row_size) :
    ∃ out, engine R = some out ∧ out.mean_buf = mean_of R ∧
      out.covariance_matrix.N = R.in_files.length ∧
      out.count = R.in_files.length * (R.in_files.length + 1) / 2 ∧
      out.count_max = R.in_files.length * (R.in_files.length + 1) / 2 ∧
      ∀ i j, i < R.in_files.length → j < R.in_files.length →
        out.covariance_matrix.get i j = some (stored_entry R (mean_of R) i j) := by
  obtain ⟨_, ha, hb⟩ := mean_pass_lengths R hlen
  obtain ⟨t, ht, tN, _, tcount, tcells⟩ :=
    covariance_loop_spec R (mean_of R)
      (R.in_files.length * (R.in_files.length + 1) / 2) hlen
      { buf_a := (mean_pass R (zero_buffers R.matrix_row_size)).buf_a,
        buf_b := (mean_pass R (zero_buffers R.matrix_row_size)).buf_b,
        covariance_matrix :=
          { N := R.in_files.length,
            data := List.replicate (R.in_files.length * R.in_files.length) (-999 : α) },
        count := 0, prev_perc := -REQ_PERC_JUMP_FOR_UPDATE * 2, printed := [] }
      rfl (by simp) ha hb rfl
  refine ⟨{ mean_buf := mean_of R, covariance_matrix := t.covariance_matrix, count := t.count,
            count_max := R.in_files.length * (R.in_files.length + 1) / 2,
            printed := t.printed }, ?_, rfl, tN, tcount, rfl, tcells⟩
  unfold engine
  simp only [HasANaN_eq_false, Bool.or_self, Bool.false_eq_true, if_false, CovMat.create,
    if_pos hN, if_pos hint, Option.some_bind]
  unfold mean_of at ht
  rw [ht]
  rfl

end EngineLemmas

/-! ## The order of the dot products -/

section Pairs

variable {α : Type} [LinearOrderedField α]

theorem mem_column_pairs (r k a b : Nat) : (a, b) ∈ column_pairs r k ↔ a = r ∧ b < k := by
  induction k with
  | zero => simp [column_pairs]
  | succ k ih =>
    simp only [column_pairs, List.mem_append, ih, List.mem_singleton, Prod.mk.injEq]
    constructor
    · rintro (⟨h1, h2⟩ | ⟨h1, h2⟩)
      · exact ⟨h1, Nat.lt_succ_of_lt h2⟩
      · exact ⟨h1, by omega⟩
    · rintro ⟨h1, h2⟩
      rcases Nat.lt_succ_iff_lt_or_eq.mp h2 with h3 | h3
      · exact Or.inl ⟨h1, h3⟩
      · exact Or.inr ⟨h1, h3⟩

theorem mem_triangle_pairs (N a b : Nat) : (a, b) ∈ triangle_pairs N ↔ b ≤ a ∧ a < N := by
  induction N with
  | zero => simp [triangle_pairs]
  | succ n ih =>
    simp only [triangle_pairs, List.mem_append, ih, mem_column_pairs]
    omega

theorem length_column_pairs (r k : Nat) : (column_pairs r k).length = k := by
  induction k with
  | zero => rfl
  | succ k ih => simp [column_pairs, ih]

theorem length_triangle_pairs (N : Nat) : (triangle_pairs N).length = N * (N + 1) / 2 := by
  induction N with
  | zero => rfl
  | succ n ih =>
    simp only [triangle_pairs, List.length_append, ih, length_column_pairs]
    exact triangle_succ n

theorem nodup_column_pairs (r k : Nat) : (column_pairs r k).Nodup := by
  induction k with
  | zero => simp [column_pairs]
  | succ k ih =>
    simp only [column_pairs]
    refine List.Nodup.append ih (List.nodup_singleton _) ?_
    intro p hp hq
    obtain ⟨a, b⟩ := p
    rw [mem_column_pairs] at hp
    rw [List.mem_singleton, Prod.mk.injEq] at hq
    omega

theorem nodup_triangle_pairs (N : Nat) : (triangle_pairs N).Nodup := by
  induction N with
  | zero => simp [triangle_pairs]
  | succ n ih =>
    simp only [triangle_pairs]
    refine List.Nodup.append ih (nodup_column_pairs n (n + 1)) ?_
    intro p hp hq
    obtain ⟨a, b⟩ := p
    rw [mem_triangle_pairs] at hp
    rw [mem_column_pairs] at hq
    omega

/-- One iteration of the column loop advances the counter by one. -/
theorem column_body_count (R : Run α) (mean : List α) (count_max r c : Nat)
    (s t : LoopState α) (h : column_body R mean count_max r c s = some t) :
    t.count = s.count + 1 := by
  unfold column_body at h
  simp only [IsNaN_eq_false, Bool.false_eq_true, if_false] at h
  cases h1 : s.covariance_matrix.set r c
      (if R.scale_covariances = true then
        dot R.DONT_USE_BLAS s.buf_a (load_column R mean c s.buf_b) R.matrix_row_size /
          (R.matrix_row_size : α)
      else dot R.DONT_USE_BLAS s.buf_a (load_column R mean c s.buf_b) R.matrix_row_size) with
  | none => rw [h1] at h; simp at h
  | some m =>
    rw [h1] at h
    simp only [Option.some_bind] at h
    cases h2 : m.set c r
        (if R.scale_covariances = true then
          dot R.DONT_USE_BLAS s.buf_a (load_column R mean c s.buf_b) R.matrix_row_size /
            (R.matrix_row_size : α)
        else dot R.DONT_USE_BLAS s.buf_a (load_column R mean c s.buf_b) R.matrix_row_size) with
    | none => rw [h2] at h; simp at h
    | some m' =>
      rw [h2] at h
      simp only [Option.some_bind, Option.some.injEq] at h
      rw [← h]

theorem pair_step_count (R : Run α) (mean : List α) (count_max : Nat)
    (s t : LoopState α) (p : Nat × Nat) (h : pair_step R mean count_max s p = some t) :
    t.count = s.count + 1 := by
  unfold pair_step at h
  split at h
  · have e := column_body_count R mean count_max p.1 p.2 _ t h
    exact e
  · exact column_body_count R mean count_max p.1 p.2 s t h

/-- The column loop of row `r` is one `pair_step` for each of the pairs
`(r, 0), ..., (r, k)`, in this order. -/
theorem row_body_unrolled (R : Run α) (mean : List α) (count_max r k : Nat) (s : LoopState α) :
    forLoopM (k + 1) (column_body R mean count_max r)
        { s with buf_a := load_row R mean r s.buf_a } =
      (column_pairs r (k + 1)).foldlM (pair_step R mean count_max) s := by
  induction k with
  | zero =>
    simp [forLoopM, column_pairs, pair_step]
  | succ k ih =>
    rw [forLoopM_succ, ih]
    show _ = (column_pairs r (k + 1) ++ [(r, k + 1)]).foldlM (pair_step R mean count_max) s
    rw [List.foldlM_append]
    simp [pair_step, Option.bind_eq_bind]

/-- The covariance loop is one `pair_step`, hence one call of `dot`, for each
pair of `triangle_pairs`, in this order. -/
theorem covariance_loop_unrolled (R : Run α) (mean : List α) (count_max N : Nat)
    (s : LoopState α) :
    covariance_loop R mean N count_max s =
      (triangle_pairs N).foldlM (pair_step R mean count_max) s := by
  unfold covariance_loop
  induction N with
  | zero => rfl
  | succ n ih =>
    rw [forLoopM_succ, ih]
    show _ = (triangle_pairs n ++ column_pairs n (n + 1)).foldlM (pair_step R mean count_max) s
    rw [List.foldlM_append]
    congr 1
    funext t
    exact row_body_unrolled R mean count_max n n t

end Pairs

/-! ## The value of the mean -/

section MeanLemmas

variable {α : Type} [LinearOrderedField α]

theorem ext_getD {a b : List α} (hl : a.length = b.length)
    (h : ∀ j, j < a.length → a.getD j 0 = b.getD j 0) : a = b := by
  apply List.ext_getElem hl
  intro j h1 h2
  have e := h j h1
  rwa [List.getD_eq_getElem _ _ h1, List.getD_eq_getElem _ _ h2] at e

/-- After `k` iterations of the mean pass, `mean_buf` holds the sum of the
first `k` accumulated vectors in every element. -/
theorem mean_loop_getD (R : Run α) (hlen : ∀ f ∈ R.in_files, f.length = R.matrix_row_size)
    (k : Nat) (hk : k ≤ R.in_files.length) (j : Nat) (hj : j < R.matrix_row_size) :
    (forLoop k (mean_body R) (zero_buffers R.matrix_row_size)).mean_buf.getD j 0 =
      ∑ i in Finset.range k, (summand R (input R i)).getD j 0 := by
  induction k with
  | zero =>
    rw [forLoop_zero, Finset.sum_range_zero]
    simp [zero_buffers, List.getD_eq_getElem?_getD, hj]
  | succ i ih =>
    obtain ⟨hm, ha, _⟩ := mean_loop_lengths R hlen i (Nat.le_of_succ_le hk)
    rw [forLoop_succ, mean_body_eq R i _ (input_length R hlen i hk) ha, Finset.sum_range_succ,
      ← ih (Nat.le_of_succ_le hk)]
    show (add _ _ _ _).getD j 0 = _
    rw [add_getD _ _ _ _ _ (by rw [hm]; exact hj), if_pos hj]

/-- With whitening, the mean pass leaves `(1/N)` times the sum of the
accumulated vectors in every element of `mean_buf`. -/
theorem mean_of_getD (R : Run α) (hlen : ∀ f ∈ R.in_files, f.length = R.matrix_row_size)
    (hw : R.whiten_data = true) (j : Nat) (hj : j < R.matrix_row_size) :
    (mean_of R).getD j 0 =
      (1 / (R.in_files.length : α)) *
        ∑ i in Finset.range R.in_files.length, (summand R (input R i)).getD j 0 := by
  obtain ⟨hm, _, _⟩ := mean_loop_lengths R hlen R.in_files.length (le_refl _)
  unfold mean_of mean_pass
  rw [if_pos hw]
  show (scalar_mult _ _ _ _).getD j 0 = _
  rw [scalar_mult_getD _ _ _ _ _ (by rw [hm]; exact hj), if_pos hj,
    mean_loop_getD R hlen _ (le_refl _) j hj, mul_comm]

theorem mean_of_not_whitened (R : Run α) (hw : R.whiten_data = false) :
    mean_of R = List.replicate R.matrix_row_size 0 := by
  unfold mean_of mean_pass
  rw [hw]
  rfl

theorem inner_product_sub_self (f : Bool) (k : List α) (n : Nat) (hk : k.length = n) :
    inner_product (sub f k k n) (sub f k k n) n = 0 := by
  unfold inner_product
  apply Finset.sum_eq_zero
  intro i hi
  have hin : i < n := Finset.mem_range.mp hi
  rw [sub_getD f k k n i (by rw [hk]; exact hin), if_pos hin, sub_self, mul_zero]

end MeanLemmas

/-! ## The covariance matrix of a run -/

section Claims

variable {α : Type} [LinearOrderedField α]

/-- C1 (evaluation at the failing input): for the three vectors of dimension
4 without logarithm, whitening and scaling, the build with `DONT_USE_BLAS`
completes with `4` in the cell `(1, 1)`, where the inner product of the
transformed vector `T(v_1) = [2, 2, 2, 2]` with itself is `16`; the build over
the BLAS dot product stores `16` in that cell. -/
theorem covariance_entry_is_rescaled :
    (engine (run_three_vectors true)).bind (fun out => out.covariance_matrix.get 1 1)
      = some 4 ∧
    T (run_three_vectors true) (mean_of (run_three_vectors true))
      (input (run_three_vectors true) 1) = [2, 2, 2, 2] ∧
    inner_product
      (T (run_three_vectors true) (mean_of (run_three_vectors true))
        (input (run_three_vectors true) 1))
      (T (run_three_vectors true) (mean_of (run_three_vectors true))
        (input (run_three_vectors true) 1)) 4 = 16 ∧
    (engine (run_three_vectors false)).bind (fun out => out.covariance_matrix.get 1 1)
      = some 16 := by
  have hT : T (run_three_vectors true) (mean_of (run_three_vectors true))
      (input (run_three_vectors true) 1) = [2, 2, 2, 2] := by decide!
  refine ⟨by decide!, hT, ?_, by decide!⟩
  rw [hT]
  simp [inner_product, Finset.sum_range_succ]
  norm_num

/-- C2 (evaluation at the failing input): built with `DONT_USE_BLAS`, `dot`
of `[1, 1]` with itself returns `1`, the inner product `2` divided by `N = 2`,
and not the plain inner product. -/
theorem dot_without_blas_is_rescaled :
    dot true ([1, 1] : List ℚ) [1, 1] 2 = 1 ∧
    inner_product ([1, 1] : List ℚ) [1, 1] 2 = 2 ∧
    dot true ([1, 1] : List ℚ) [1, 1] 2 ≠ inner_product ([1, 1] : List ℚ) [1, 1] 2 := by
  have h1 : dot true ([1, 1] : List ℚ) [1, 1] 2 = 1 := by decide!
  have h2 : inner_product ([1, 1] : List ℚ) [1, 1] 2 = 2 := by
    simp [inner_product, Finset.sum_range_succ]
    norm_num
  refine ⟨h1, h2, ?_⟩
  rw [h1, h2]
  norm_num

/-- C3 (evaluation at the failing input): with `take_log = true` the element
`-2.0` is replaced by `0`, where the sign-preserving logarithm of the
specification gives `-ln 2`, which is not `0`; the elements `2.0` and `1e-12`
are replaced by `ln 2` and by `0`. -/
theorem negative_element_is_zeroed :
    component_wise_log Real.log [(-2 : ℝ)] 1 true = [0] ∧
    spec_log Real.log (-2 : ℝ) = -Real.log 2 ∧
    (0 : ℝ) ≠ -Real.log 2 ∧
    component_wise_log Real.log [(2 : ℝ)] 1 true = [Real.log 2] ∧
    component_wise_log Real.log [(1 / 1000000000000 : ℝ)] 1 true = [0] := by
  refine ⟨?_, ?_, ?_, ?_, ?_⟩
  · rw [component_wise_log_eq]
    have h : log_elem Real.log (-2 : ℝ) = 0 := by
      rw [log_elem_eq, if_pos]
      unfold SMALL_VAL
      norm_num
    simp [forLoop_succ, forLoop_zero, h]
  · unfold spec_log
    rw [if_neg, if_neg]
    · norm_num
    · norm_num
    · rw [abs_of_neg (by norm_num)]
      norm_num
  · have h : 0 < Real.log 2 := Real.log_pos (by norm_num)
    linarith
  · rw [component_wise_log_eq]
    have h : log_elem Real.log (2 : ℝ) = Real.log 2 := by
      rw [log_elem_eq, if_neg]
      unfold SMALL_VAL
      norm_num
    simp [forLoop_succ, forLoop_zero, h]
  · rw [component_wise_log_eq]
    have h : log_elem Real.log (1 / 1000000000000 : ℝ) = 0 := by
      rw [log_elem_eq, if_pos]
      unfold SMALL_VAL
      norm_num
    simp only [forLoop_succ, forLoop_zero, List.getD_cons_zero, h, List.set_cons_zero]

/-- C4 (evaluation at the failing input): for the three vectors of dimension
4 without logarithm, whitening and scaling, the build with `DONT_USE_BLAS`
produces `[[1,2,0],[2,4,0],[0,0,0]]`, every dot product divided by 4, while
the build over the BLAS dot product produces `[[4,8,0],[8,16,0],[0,0,0]]`. -/
theorem three_vectors_matrix :
    (engine (run_three_vectors true)).map (fun out => out.covariance_matrix.data)
      = some [1, 2, 0, 2, 4, 0, 0, 0, 0] ∧
    (engine (run_three_vectors false)).map (fun out => out.covariance_matrix.data)
      = some [4, 8, 0, 8, 16, 0, 0, 0, 0] := by
  constructor <;> decide!

/-- C5: for N >= 1 input vectors, with `N * N` within `int`, and any
configuration the run completes with an exactly symmetric matrix:
`M[r][c] = M[c][r]` for all `r, c < N`. -/
theorem covariance_symmetric (R : Run α) (hN : 1 ≤ R.in_files.length)
    (hint : R.in_files.length * R.in_files.length ≤ INT_MAX)
    (hlen : ∀ f ∈ R.in_files, f.length = R.matrix_row_size) (r c : Nat)
    (hr : r < R.in_files.length) (hc : c < R.in_files.length) :
    ∃ out, engine R = some out ∧
      (∃ value, out.covariance_matrix.get r c = some value) ∧
      out.covariance_matrix.get r c = out.covariance_matrix.get c r := by
  obtain ⟨out, hout, _, _, _, _, hcells⟩ := engine_spec R hN hint hlen
  refine ⟨out, hout, ⟨_, hcells r c hr hc⟩, ?_⟩
  rw [hcells r c hr hc, hcells c r hc hr, stored_entry_symm]

/-- Witness of C5: the whitened and scaled run of the three vectors, built
with `DONT_USE_BLAS`, at the cells `(2, 1)` and `(1, 2)`. -/
theorem covariance_symmetric_witness :
    ∃ out, engine (run_whitened_scaled true) = some out ∧
      (∃ value, out.covariance_matrix.get 2 1 = some value) ∧
      out.covariance_matrix.get 2 1 = out.covariance_matrix.get 1 2 :=
  covariance_symmetric (run_whitened_scaled true) (by decide) (by decide) (by decide) 2 1
    (by decide) (by decide)

/-- C6 (counterexample): one input vector of dimension 0 in the build with
`DONT_USE_BLAS`.  The first `dot` is `0.0 / 0`, a NaN, and the assertion on
it aborts the loop in its first iteration: the run does not complete, so the
counter never reaches `count_max = 1`. -/
theorem loop_aborts_at_dimension_zero :
    1 ≤ (run_dimension_zero true false).in_files.length ∧
    IsNaN (dot true ([] : List Dbl) [] 0) = true ∧
    (pair_step (run_dimension_zero true false) [] 1 start_dimension_zero (0, 0)).isSome
      = false ∧
    engine (run_dimension_zero true false) = none := by
  refine ⟨by decide, by decide!, by decide!, by decide!⟩

/-- C6 (amended): for N >= 1 input vectors of positive dimension, with `N * N`
within `int`, in exact arithmetic (no value is a NaN).  The run completes with
the counter `count` equal to `count_max = N * (N + 1) / 2`, and the cell of a
pair `(r, c)` with `c ≤ r < N` holds the `dot` of the transformed vectors of
the pair (divided by the dimension when scaling).  The covariance loop is one
step for each pair of `triangle_pairs N`, a duplicate-free list of
`N * (N + 1) / 2` pairs that holds `(a, b)` exactly when `b ≤ a < N`; the step
of a pair `(r, c)` completes, loads the transformed vector of `c` into
`buf_b`, increments `count` by one, and stores in the cells `(r, c)` and
`(c, r)` the value of one `dot` of the two buffers (divided by the dimension
when scaling). -/
theorem dot_evaluation_count (R : Run α) (hN : 1 ≤ R.in_files.length)
    (hint : R.in_files.length * R.in_files.length ≤ INT_MAX)
    (_hdim : 0 < R.matrix_row_size)
    (hlen : ∀ f ∈ R.in_files, f.length = R.matrix_row_size)
    (mean : List α) (count_max : Nat) (s : LoopState α)
    (hsN : s.covariance_matrix.N = R.in_files.length)
    (hwf : s.covariance_matrix.data.length = R.in_files.length * R.in_files.length)
    (hb : s.buf_b.length = R.matrix_row_size)
    (r c : Nat) (hcr : c ≤ r) (hr : r < R.in_files.length) :
    (∃ out, engine R = some out ∧ out.count = out.count_max ∧
      out.count_max = R.in_files.length * (R.in_files.length + 1) / 2 ∧
      out.covariance_matrix.get r c =
        some (if R.scale_covariances then
                dot R.DONT_USE_BLAS (T R out.mean_buf (input R r)) (T R out.mean_buf (input R c))
                  R.matrix_row_size / (R.matrix_row_size : α)
              else
                dot R.DONT_USE_BLAS (T R out.mean_buf (input R r)) (T R out.mean_buf (input R c))
                  R.matrix_row_size)) ∧
    covariance_loop R mean R.in_files.length count_max s =
      (triangle_pairs R.in_files.length).foldlM (pair_step R mean count_max) s ∧
    (∃ t, pair_step R mean count_max s (r, c) = some t ∧
      t.count = s.count + 1 ∧
      t.buf_b = T R mean (input R c) ∧
      t.covariance_matrix.get r c =
        some (if R.scale_covariances then
                dot R.DONT_USE_BLAS t.buf_a t.buf_b R.matrix_row_size / (R.matrix_row_size : α)
              else dot R.DONT_USE_BLAS t.buf_a t.buf_b R.matrix_row_size) ∧
      t.covariance_matrix.get c r = t.covariance_matrix.get r c) ∧
    (triangle_pairs R.in_files.length).length
      = R.in_files.length * (R.in_files.length + 1) / 2 ∧
    (triangle_pairs R.in_files.length).Nodup ∧
    (∀ a b, (a, b) ∈ triangle_pairs R.in_files.length ↔ (b ≤ a ∧ a < R.in_files.length)) := by
  obtain ⟨out, hout, hmean, _, hcount, hmax, hcells⟩ := engine_spec R hN hint hlen
  have hcN : c < R.in_files.length := lt_of_le_of_lt hcr hr
  refine ⟨⟨out, hout, by rw [hcount, hmax], hmax, ?_⟩,
    covariance_loop_unrolled R mean count_max _ s,
    ?_, length_triangle_pairs _, nodup_triangle_pairs _, mem_triangle_pairs _⟩
  · rw [hcells r c hr hcN, stored_entry_eq, hmean]
    rfl
  · have hstep : ∀ u : LoopState α, u.covariance_matrix = s.covariance_matrix →
        u.buf_b = s.buf_b →
        ∃ t, column_body R mean count_max r c u = some t ∧
          t.count = u.count + 1 ∧ t.buf_b = T R mean (input R c) ∧
          t.covariance_matrix.get r c = some (spec_entry R t.buf_a t.buf_b) ∧
          t.covariance_matrix.get c r = t.covariance_matrix.get r c := by
      intro u hu hub
      obtain ⟨t, ht, _, htb, htc, h1, h2⟩ :=
        column_body_cell R mean count_max r c u (by rw [hu, hwf, hsN])
          (by rw [hu, hsN]; exact hr) (by rw [hu, hsN]; exact hcN)
          (input_length R hlen c hcN) (by rw [hub]; exact hb)
      exact ⟨t, ht, htc, htb, h1, by rw [h1, h2]⟩
    unfold pair_step
    by_cases h0 : c = 0
    · rw [if_pos h0]
      exact hstep _ rfl rfl
    · rw [if_neg h0]
      exact hstep s rfl rfl

/-- Witness of C6: the three vectors of the end-to-end scenario, with the
loop started in the state in which `main` starts it, at the pair `(2, 1)`. -/
theorem dot_evaluation_count_witness :
    (∃ out, engine (run_three_vectors false) = some out ∧ out.count = out.count_max ∧
      out.count_max = 3 * (3 + 1) / 2 ∧
      out.covariance_matrix.get 2 1 =
        some (if (run_three_vectors false).scale_covariances then
                dot false (T (run_three_vectors false) out.mean_buf
                            (input (run_three_vectors false) 2))
                  (T (run_three_vectors false) out.mean_buf
                    (input (run_three_vectors false) 1)) 4 / ((4 : Nat) : ℚ)
              else
                dot false (T (run_three_vectors false) out.mean_buf
                            (input (run_three_vectors false) 2))
                  (T (run_three_vectors false) out.mean_buf
                    (input (run_three_vectors false) 1)) 4)) ∧
    covariance_loop (run_three_vectors false) [0, 0, 0, 0] 3 6 start_three_vectors =
      (triangle_pairs 3).foldlM (pair_step (run_three_vectors false) [0, 0, 0, 0] 6)
        start_three_vectors ∧
    (∃ t, pair_step (run_three_vectors false) [0, 0, 0, 0] 6 start_three_vectors (2, 1)
        = some t ∧
      t.count = start_three_vectors.count + 1 ∧
      t.buf_b = T (run_three_vectors false) [0, 0, 0, 0] (input (run_three_vectors false) 1) ∧
      t.covariance_matrix.get 2 1 =
        some (if (run_three_vectors false).scale_covariances then
                dot false t.buf_a t.buf_b 4 / ((4 : Nat) : ℚ)
              else dot false t.buf_a t.buf_b 4) ∧
      t.covariance_matrix.get 1 2 = t.covariance_matrix.get 2 1) ∧
    (triangle_pairs 3).length = 3 * (3 + 1) / 2 ∧
    (triangle_pairs 3).Nodup ∧
    (∀ a b, (a, b) ∈ triangle_pairs 3 ↔ (b ≤ a ∧ a < 3)) :=
  dot_evaluation_count (run_three_vectors false) (by decide) (by decide) (by decide)
    (by decide) [0, 0, 0, 0] 6 start_three_vectors rfl rfl rfl 2 1 (by decide) (by decide)

/-- C7 (counterexample): one input vector of dimension 0 in the build over
BLAS.  The run without `scale_covariances` completes with the matrix `[[0]]`;
the run with `scale_covariances` computes `0.0 / 0`, a NaN, and aborts on the
assertion: it produces no matrix. -/
theorem scaled_run_aborts_at_dimension_zero :
    engine (run_dimension_zero false false) =
      some { mean_buf := [],
             covariance_matrix := { N := 1, data := [Dbl.num 0] },
             count := 1, count_max := 1, printed := [0] } ∧
    engine (run_dimension_zero false true) = none := by
  constructor <;> decide!

/-- C7 (amended): for N >= 1 input vectors of positive dimension, with
`N * N` within `int`, and any fixed `take_log`, `whiten_data` and
`whiten_before_log`, in exact arithmetic: the runs without and with
`scale_covariances` both complete, and each cell of the scaled run is the
cell of the unscaled run divided by the dimension. -/
theorem scaling_divides_by_dimension (R : Run α) (hN : 1 ≤ R.in_files.length)
    (hint : R.in_files.length * R.in_files.length ≤ INT_MAX)
    (_hdim : 0 < R.matrix_row_size)
    (hlen : ∀ f ∈ R.in_files, f.length = R.matrix_row_size) (r c : Nat)
    (hr : r < R.in_files.length) (hc : c < R.in_files.length) :
    ∃ out out', engine { R with scale_covariances := false } = some out ∧
      engine { R with scale_covariances := true } = some out' ∧
      ∃ m, out.covariance_matrix.get r c = some m ∧
        out'.covariance_matrix.get r c = some (m / (R.matrix_row_size : α)) := by
  obtain ⟨out, hout, _, _, _, _, hcells⟩ :=
    engine_spec { R with scale_covariances := false } hN hint hlen
  obtain ⟨out', hout', _, _, _, _, hcells'⟩ :=
    engine_spec { R with scale_covariances := true } hN hint hlen
  refine ⟨out, out', hout, hout', _, hcells r c hr hc, ?_⟩
  rw [hcells' r c hr hc]
  rfl

/-- Witness of C7: the three vectors with whitening, at the cell `(2, 1)`,
which holds `-4` without scaling and `-1` with it. -/
theorem scaling_divides_by_dimension_witness :
    ∃ out out', engine { run_whitened_scaled false with scale_covariances := false } = some out ∧
      engine { run_whitened_scaled false with scale_covariances := true } = some out' ∧
      ∃ m, out.covariance_matrix.get 2 1 = some m ∧
        out'.covariance_matrix.get 2 1 = some (m / ((4 : Nat) : ℚ)) :=
  scaling_divides_by_dimension (run_whitened_scaled false) (by decide) (by decide) (by decide)
    (by decide) 2 1 (by decide) (by decide)

/-- C8 (counterexample): three copies of the vector `[0.7]` in `double`
arithmetic, with whitening and without logarithm, in either build.  The sum
`0.7 + 0.7 + 0.7` and its product with `1.0 / 3` are rounded: the mean pass
leaves `6305039478318693 / 2 ^ 53`, one unit in the last place below `0.7`, and
every cell of the matrix holds `2 ^ (-106)`, not `0`. -/
theorem constant_inputs_in_double :
    (engine (run_seven_tenths false)).map
        (fun out => (out.mean_buf, out.covariance_matrix.data)) =
      some ([(⟨6305039478318693 / 9007199254740992⟩ : Binary64)],
            List.replicate 9 (⟨1 / 81129638414606681695789005144064⟩ : Binary64)) ∧
    (engine (run_seven_tenths true)).map
        (fun out => (out.mean_buf, out.covariance_matrix.data)) =
      some ([(⟨6305039478318693 / 9007199254740992⟩ : Binary64)],
            List.replicate 9 (⟨1 / 81129638414606681695789005144064⟩ : Binary64)) ∧
    seven_tenths = ⟨6305039478318694 / 9007199254740992⟩ ∧
    (⟨6305039478318693 / 9007199254740992⟩ : Binary64) ≠ seven_tenths ∧
    (⟨1 / 81129638414606681695789005144064⟩ : Binary64) ≠ 0 := by
  refine ⟨by decide!, by decide!, by decide!, by decide!, by decide!⟩

/-- C8 (amended): in exact arithmetic, with `whiten_data = true` and
`take_log = false`, when all N >= 1 input vectors (`N * N` within `int`)
equal `k`, the run completes with `mean_buf` equal to `k` and with `0` in
every cell `(r, c)` of the covariance matrix. -/
theorem constant_inputs_give_zero_matrix (R : Run α) (k : List α)
    (hw : R.whiten_data = true) (hl : R.take_log = false)
    (hN : 1 ≤ R.in_files.length)
    (hint : R.in_files.length * R.in_files.length ≤ INT_MAX)
    (hk : ∀ f ∈ R.in_files, f = k)
    (hklen : k.length = R.matrix_row_size) (r c : Nat)
    (hr : r < R.in_files.length) (hc : c < R.in_files.length) :
    ∃ out, engine R = some out ∧ out.mean_buf = k ∧
      out.covariance_matrix.get r c = some 0 := by
  have hlen : ∀ f ∈ R.in_files, f.length = R.matrix_row_size := by
    intro f hf; rw [hk f hf]; exact hklen
  have hin : ∀ i, i < R.in_files.length → input R i = k := by
    intro i hi
    apply hk
    unfold input
    rw [List.getD_eq_getElem _ _ hi]
    exact List.getElem_mem hi
  have hsum : summand R k = k := by
    unfold summand
    rw [hl, component_wise_log_false]
    split <;> rfl
  have hmean : mean_of R = k := by
    obtain ⟨hm, _, _⟩ := mean_pass_lengths R hlen
    apply ext_getD
    · show (mean_pass R (zero_buffers R.matrix_row_size)).mean_buf.length = _
      rw [hm, hklen]
    · intro j hj
      have hj' : j < R.matrix_row_size := by
        have : (mean_of R).length = R.matrix_row_size := hm
        omega
      rw [mean_of_getD R hlen hw j hj']
      have e : ∑ i in Finset.range R.in_files.length, (summand R (input R i)).getD j 0 =
          ∑ _i in Finset.range R.in_files.length, k.getD j 0 := by
        apply Finset.sum_congr rfl
        intro i hi
        rw [hin i (Finset.mem_range.mp hi), hsum]
      rw [e, Finset.sum_const, Finset.card_range, nsmul_eq_mul]
      have hne : (R.in_files.length : α) ≠ 0 := by
        have : 0 < R.in_files.length := hN
        exact_mod_cast (Nat.pos_iff_ne_zero.mp this)
      field_simp
  have hT : T R k k = sub R.DONT_USE_BLAS k k R.matrix_row_size := by
    unfold T
    rw [hw, hl]
    cases R.whiten_before_log <;> simp only [component_wise_log_false]
  obtain ⟨out, hout, hm, _, _, _, hcells⟩ := engine_spec R hN hint hlen
  refine ⟨out, hout, by rw [hm, hmean], ?_⟩
  rw [hcells r c hr hc, stored_entry_eq, hmean, hin r hr, hin c hc, hT]
  unfold spec_entry
  rw [dot_eq, inner_product_sub_self _ _ _ hklen]
  simp

/-- Witness of C8: three copies of the vector `[1, 2]`, scaled covariances,
whitening after the (disabled) logarithm, at the cell `(0, 2)`. -/
theorem constant_inputs_give_zero_matrix_witness :
    ∃ out, engine run_constant = some out ∧ out.mean_buf = [1, 2] ∧
      out.covariance_matrix.get 0 2 = some 0 :=
  constant_inputs_give_zero_matrix run_constant [1, 2] rfl rfl (by decide) (by decide)
    (by decide!) rfl 0 2 (by decide) (by decide)

/-- C9: for N >= 1 input vectors, with `whiten_data = true` the mean pass
leaves in element `j` of `mean_buf` the value `(1/N) * sum_i u_i[j]`, where
`u_i` is `component_wise_log(v_i, take_log)` when `whiten_before_log` is
false and the raw `v_i` when it is true; with `whiten_data = false` the pass
is skipped and `mean_buf` stays the zero vector. -/
theorem mean_pass_result (R : Run α) (_hN : 1 ≤ R.in_files.length)
    (hlen : ∀ f ∈ R.in_files, f.length = R.matrix_row_size)
    (j : Nat) (hj : j < R.matrix_row_size) :
    (mean_pass R (zero_buffers R.matrix_row_size)).mean_buf.getD j 0 =
      (if R.whiten_data then
        (1 / (R.in_files.length : α)) *
          ∑ i in Finset.range R.in_files.length,
            (if R.whiten_before_log then input R i
             else component_wise_log R.log (input R i) R.matrix_row_size R.take_log).getD j 0
       else 0) ∧
    (R.whiten_data = true ∨
      (mean_pass R (zero_buffers R.matrix_row_size)).mean_buf
        = List.replicate R.matrix_row_size 0) := by
  cases hw : R.whiten_data
  · have h0 := mean_of_not_whitened R hw
    unfold mean_of at h0
    refine ⟨?_, Or.inr h0⟩
    rw [h0]
    simp [List.getD_eq_getElem?_getD, hj]
  · refine ⟨?_, Or.inl rfl⟩
    exact mean_of_getD R hlen hw j hj

/-- Witness of C9: the whitened run of the three vectors, at element 2. -/
theorem mean_pass_result_witness :
    (mean_pass (run_whitened_scaled false) (zero_buffers 4)).mean_buf.getD 2 0 =
      (if (run_whitened_scaled false).whiten_data then
        (1 / ((3 : Nat) : ℚ)) *
          ∑ i in Finset.range 3,
            (if (run_whitened_scaled false).whiten_before_log then
               input (run_whitened_scaled false) i
             else component_wise_log (run_whitened_scaled false).log
               (input (run_whitened_scaled false) i) 4
               (run_whitened_scaled false).take_log).getD 2 0
       else 0) ∧
    ((run_whitened_scaled false).whiten_data = true ∨
      (mean_pass (run_whitened_scaled false) (zero_buffers 4)).mean_buf
        = List.replicate 4 0) :=
  mean_pass_result (run_whitened_scaled false) (by decide) (by decide) 2 (by decide)

end Claims

/-! ## The vector operations and the matrix container as contracts -/

section Contracts

variable {α : Type} [LinearOrderedField α]

theorem add_cell (f : Bool) (a b : List α) (N j : Nat) (hN : N ≤ a.length) :
    (add f a b N)[j]? = if j < N then some (a.getD j 0 + b.getD j 0) else a[j]? := by
  cases f
  · have h : (add false a b N)[j]? =
        if j < N then some (1 * b.getD j 0 + a.getD j 0) else a[j]? :=
      forLoop_set_cell (fun i x => 1 * b.getD i 0 + x) N a j hN
    rw [h, one_mul, add_comm]
  · exact forLoop_set_cell (fun i x => x + b.getD i 0) N a j hN

theorem sub_cell (f : Bool) (a b : List α) (N j : Nat) (hN : N ≤ a.length) :
    (sub f a b N)[j]? = if j < N then some (a.getD j 0 - b.getD j 0) else a[j]? := by
  cases f
  · have h : (sub false a b N)[j]? =
        if j < N then some (-1 * b.getD j 0 + a.getD j 0) else a[j]? :=
      forLoop_set_cell (fun i x => -1 * b.getD i 0 + x) N a j hN
    have e : -1 * b.getD j 0 + a.getD j 0 = a.getD j 0 - b.getD j 0 := by ring
    rw [h, e]
  · exact forLoop_set_cell (fun i x => x - b.getD i 0) N a j hN

theorem scalar_mult_cell (f : Bool) (a : List α) (c : α) (N j : Nat) (hN : N ≤ a.length) :
    (scalar_mult f a c N)[j]? = if j < N then some (a.getD j 0 * c) else a[j]? := by
  cases f
  · exact forLoop_set_cell (fun _ x => x * c) N a j hN
  · exact forLoop_set_cell (fun _ x => x * c) N a j hN

/-- C14: for buffers that hold at least `N` elements, in either build,
`add(a, b, N)` leaves `a[i] + b[i]`, `sub(a, b, N)` leaves `a[i] - b[i]` and
`scalar_mult(a, c, N)` leaves `a[i] * c` in every cell `i < N` of `a`; the
cells at `i >= N` keep their content and the buffer keeps its length.  The
functions yield the new content of the first argument only: the second
argument is read and never assigned. -/
theorem vector_ops_in_place (f : Bool) (a b : List α) (c : α) (N i : Nat)
    (hN : N ≤ a.length) :
    (add f a b N)[i]? = (if i < N then some (a.getD i 0 + b.getD i 0) else a[i]?) ∧
    (sub f a b N)[i]? = (if i < N then some (a.getD i 0 - b.getD i 0) else a[i]?) ∧
    (scalar_mult f a c N)[i]? = (if i < N then some (a.getD i 0 * c) else a[i]?) ∧
    (add f a b N).length = a.length ∧
    (sub f a b N).length = a.length ∧
    (scalar_mult f a c N).length = a.length :=
  ⟨add_cell f a b N i hN, sub_cell f a b N i hN, scalar_mult_cell f a c N i hN,
    add_length f a b N, sub_length f a b N, scalar_mult_length f a c N⟩

/-- Witness of C14: buffers of three elements and `N = 2`, at the cell
`i = 2` that lies beyond `N`, in the build with `DONT_USE_BLAS`. -/
theorem vector_ops_in_place_witness :
    (add true ([1, 2, 3] : List ℚ) [10, 20, 30] 2)[2]? =
      (if 2 < 2 then some (([1, 2, 3] : List ℚ).getD 2 0 + ([10, 20, 30] : List ℚ).getD 2 0)
       else ([1, 2, 3] : List ℚ)[2]?) ∧
    (sub true ([1, 2, 3] : List ℚ) [10, 20, 30] 2)[2]? =
      (if 2 < 2 then some (([1, 2, 3] : List ℚ).getD 2 0 - ([10, 20, 30] : List ℚ).getD 2 0)
       else ([1, 2, 3] : List ℚ)[2]?) ∧
    (scalar_mult true ([1, 2, 3] : List ℚ) 5 2)[2]? =
      (if 2 < 2 then some (([1, 2, 3] : List ℚ).getD 2 0 * 5) else ([1, 2, 3] : List ℚ)[2]?) ∧
    (add true ([1, 2, 3] : List ℚ) [10, 20, 30] 2).length = ([1, 2, 3] : List ℚ).length ∧
    (sub true ([1, 2, 3] : List ℚ) [10, 20, 30] 2).length = ([1, 2, 3] : List ℚ).length ∧
    (scalar_mult true ([1, 2, 3] : List ℚ) 5 2).length = ([1, 2, 3] : List ℚ).length :=
  vector_ops_in_place true [1, 2, 3] [10, 20, 30] 5 2 2 (by decide)

end Contracts

section ContainerContract

variable {α : Type}

/-- C15 (counterexample): for `n = 46341` the product `N * N` of the
constructor exceeds `INT_MAX`; the `int` product overflows and no matrix is
constructed. -/
theorem constructor_overflows :
    0 < 46341 ∧ INT_MAX < 46341 * 46341 ∧ CovMat.create 46341 (-999 : ℚ) = none := by
  refine ⟨by decide, by decide, by decide⟩

/-- C15 (amended): for `n > 0` with `n * n` within `int` the constructor
`CovMat(n, s)` succeeds, the matrix reports `n` rows and `n` columns, holds
`n * n` cells and reads `s` at every cell `(p, q)` with `p, q < n`; and in a
matrix of `N * N` cells, `N * N` within `int`, assigning `v` to an in-range
cell `(r, c)` computes an index within `int`, succeeds, keeps the shape, and
afterwards an in-range cell `(i, j)` reads `v` if it is `(r, c)` and what it
read before otherwise. -/
theorem covmat_fresh_and_write (n : Nat) (s v : α) (m : CovMat α) (r c i j p q : Nat)
    (hn : 0 < n) (hint : n * n ≤ INT_MAX) (hp : p < n) (hq : q < n)
    (hwf : m.data.length = m.N * m.N) (hmint : m.N * m.N ≤ INT_MAX)
    (hr : r < m.N) (hc : c < m.N) (hi : i < m.N) (hj : j < m.N) :
    (∃ fresh, CovMat.create n s = some fresh ∧
      fresh.getNumRows = n ∧ fresh.getNumCols = n ∧
      fresh.data.length = fresh.N * fresh.N ∧ fresh.get p q = some s) ∧
    (r * m.N + c ≤ INT_MAX ∧
      ∃ m', m.set r c v = some m' ∧ m'.N = m.N ∧ m'.data.length = m'.N * m'.N ∧
        m'.get i j = if r = i ∧ c = j then some v else m.get i j) := by
  constructor
  · refine ⟨{ N := n, data := List.replicate (n * n) s }, ?_, rfl, rfl, ?_, ?_⟩
    · simp [CovMat.create, hn, hint]
    · simp
    · rw [CovMat.get_eq _ p q hp hq]
      show (List.replicate (n * n) s)[p * n + q]? = some s
      rw [List.getElem?_replicate, if_pos (cell_index_lt hp hq)]
  · refine ⟨(int_products_in_range m.N hmint).2 r c hr hc,
      _, CovMat.set_eq_some m r c v hr hc, rfl, ?_, ?_⟩
    · show (m.data.set (r * m.N + c) v).length = m.N * m.N
      rw [List.length_set, hwf]
    · exact CovMat.get_after_set m hwf r c i j v hr hc hi hj

/-- Witness of C15: the matrix of the engine for three files, created with
the sentinel `-999`, written at `(2, 1)` and read at `(1, 2)`. -/
theorem covmat_fresh_and_write_witness :
    (∃ fresh, CovMat.create 3 (-999 : ℚ) = some fresh ∧
      fresh.getNumRows = 3 ∧ fresh.getNumCols = 3 ∧
      fresh.data.length = fresh.N * fresh.N ∧ fresh.get 0 2 = some (-999)) ∧
    (2 * start_three_vectors.covariance_matrix.N + 1 ≤ INT_MAX ∧
      ∃ m', start_three_vectors.covariance_matrix.set 2 1 7 = some m' ∧
        m'.N = start_three_vectors.covariance_matrix.N ∧ m'.data.length = m'.N * m'.N ∧
        m'.get 1 2 = if 2 = 1 ∧ 1 = 2 then some 7
                     else start_three_vectors.covariance_matrix.get 1 2) :=
  covmat_fresh_and_write 3 (-999) 7 start_three_vectors.covariance_matrix 2 1 1 2 0 2
    (by decide) (by decide) (by decide) (by decide) (by decide) (by decide) (by decide)
    (by decide) (by decide) (by decide)

end ContainerContract

/-! ## The matrix as a Gram matrix -/

section Gram

variable {α : Type} [LinearOrderedField α]

/-- The entry of two vectors is a non-negative multiple of their inner
product: the factor collects the division of the `DONT_USE_BLAS` build and
the division of `scale_covariances`. -/
theorem spec_entry_eq_factor (R : Run α) :
    ∃ κ : α, 0 ≤ κ ∧ ∀ x y, spec_entry R x y = κ * inner_product x y R.matrix_row_size := by
  have hn : (0 : α) ≤ (R.matrix_row_size : α) := Nat.cast_nonneg _
  have hinv : (0 : α) ≤ 1 / (R.matrix_row_size : α) := div_nonneg zero_le_one hn
  unfold spec_entry
  cases hs : R.scale_covariances <;> cases hf : R.DONT_USE_BLAS
  · exact ⟨1, zero_le_one, fun x y => by simp [dot_eq]⟩
  · exact ⟨1 / (R.matrix_row_size : α), hinv, fun x y => by simp [dot_eq]; ring⟩
  · exact ⟨1 / (R.matrix_row_size : α), hinv, fun x y => by simp [dot_eq]; ring⟩
  · exact ⟨1 / (R.matrix_row_size : α) * (1 / (R.matrix_row_size : α)),
      mul_nonneg hinv hinv, fun x y => by simp [dot_eq]; ring⟩

/-- A weighted double sum of inner products is a sum of squares. -/
theorem weighted_gram_eq (w : Nat → α) (X : Nat → Nat → α) (N n : Nat) :
    ∑ r in Finset.range N, ∑ c in Finset.range N,
        w r * w c * ∑ i in Finset.range n, X r i * X c i =
      ∑ i in Finset.range n, (∑ r in Finset.range N, w r * X r i) ^ 2 := by
  have h1 : ∀ i, (∑ r in Finset.range N, w r * X r i) ^ 2 =
      ∑ r in Finset.range N, ∑ c in Finset.range N, w r * w c * (X r i * X c i) := by
    intro i
    rw [sq, Finset.sum_mul_sum]
    refine Finset.sum_congr rfl (fun r _ => Finset.sum_congr rfl (fun c _ => ?_))
    ring
  simp only [h1, Finset.mul_sum]
  calc ∑ r in Finset.range N, ∑ c in Finset.range N, ∑ i in Finset.range n,
          w r * w c * (X r i * X c i)
      = ∑ r in Finset.range N, ∑ i in Finset.range n, ∑ c in Finset.range N,
          w r * w c * (X r i * X c i) :=
        Finset.sum_congr rfl (fun r _ => Finset.sum_comm)
    _ = ∑ i in Finset.range n, ∑ r in Finset.range N, ∑ c in Finset.range N,
          w r * w c * (X r i * X c i) := Finset.sum_comm

/-- The sum over the columns of the inner products with a fixed row is the
inner product of the row with the column sum. -/
theorem row_sum_inner (X : Nat → Nat → α) (r N n : Nat) :
    ∑ c in Finset.range N, ∑ i in Finset.range n, X r i * X c i =
      ∑ i in Finset.range n, X r i * ∑ c in Finset.range N, X c i := by
  rw [Finset.sum_comm]
  refine Finset.sum_congr rfl (fun i _ => ?_)
  rw [Finset.mul_sum]

/-- With whitening and no logarithm after the subtraction, the transform
subtracts the mean from the vector that the mean pass accumulated. -/
theorem T_eq_sub_summand (R : Run α) (mean v : List α) (hw : R.whiten_data = true)
    (hcase : R.take_log = false ∨ R.whiten_before_log = false) :
    T R mean v = sub R.DONT_USE_BLAS (summand R v) mean R.matrix_row_size := by
  unfold T summand
  rw [hw]
  cases hb : R.whiten_before_log
  · rfl
  · rcases hcase with h | h
    · rw [h]
      simp only [component_wise_log_false]
      rfl
    · rw [hb] at h
      exact absurd h (by decide)

/-- With whitening and no logarithm after the subtraction, the transformed
vectors of a run sum to zero in every element. -/
theorem centered_sum (R : Run α) (hw : R.whiten_data = true)
    (hcase : R.take_log = false ∨ R.whiten_before_log = false)
    (hN : 1 ≤ R.in_files.length)
    (hlen : ∀ f ∈ R.in_files, f.length = R.matrix_row_size)
    (j : Nat) (hj : j < R.matrix_row_size) :
    ∑ i in Finset.range R.in_files.length, (T R (mean_of R) (input R i)).getD j 0 = 0 := by
  have hterm : ∀ i ∈ Finset.range R.in_files.length,
      (T R (mean_of R) (input R i)).getD j 0 =
        (summand R (input R i)).getD j 0 - (mean_of R).getD j 0 := by
    intro i hi
    have hi' : i < R.in_files.length := Finset.mem_range.mp hi
    rw [T_eq_sub_summand R _ _ hw hcase,
      sub_getD _ _ _ _ _ (by rw [summand_length, input_length R hlen i hi']; exact hj),
      if_pos hj]
  rw [Finset.sum_congr rfl hterm, Finset.sum_sub_distrib, Finset.sum_const, Finset.card_range,
    nsmul_eq_mul, mean_of_getD R hlen hw j hj]
  have hne : (R.in_files.length : α) ≠ 0 := by
    have : 0 < R.in_files.length := hN
    exact_mod_cast (Nat.pos_iff_ne_zero.mp this)
  field_simp

/-- C19: for N >= 1 input vectors, with `N * N` within `int`, any
configuration and any weights `w`, the run completes with a matrix `M` that
reads a value at every cell, whose quadratic form
`sum_r sum_c w_r * w_c * M[r][c]` is non-negative and whose diagonal entry
`M[d][d]` is non-negative. -/
theorem gram_matrix_psd (R : Run α) (hN : 1 ≤ R.in_files.length)
    (hint : R.in_files.length * R.in_files.length ≤ INT_MAX)
    (hlen : ∀ f ∈ R.in_files, f.length = R.matrix_row_size) (w : Nat → α)
    (r c d : Nat) (hr : r < R.in_files.length) (hc : c < R.in_files.length)
    (hd : d < R.in_files.length) :
    ∃ out, engine R = some out ∧
      (out.covariance_matrix.get r c).isSome = true ∧
      0 ≤ ∑ r in Finset.range R.in_files.length, ∑ c in Finset.range R.in_files.length,
            w r * w c * (out.covariance_matrix.get r c).getD 0 ∧
      0 ≤ (out.covariance_matrix.get d d).getD 0 := by
  obtain ⟨out, hout, _, _, _, _, hcells⟩ := engine_spec R hN hint hlen
  obtain ⟨κ, hκ, hentry⟩ := spec_entry_eq_factor R
  have hval : ∀ i j, i < R.in_files.length → j < R.in_files.length →
      (out.covariance_matrix.get i j).getD 0 =
        κ * ∑ k in Finset.range R.matrix_row_size,
          (T R (mean_of R) (input R i)).getD k 0 * (T R (mean_of R) (input R j)).getD k 0 := by
    intro i j hi hj
    rw [hcells i j hi hj, stored_entry_eq, hentry]
    rfl
  refine ⟨out, hout, by rw [hcells r c hr hc]; rfl, ?_, ?_⟩
  · have hsum : ∑ r in Finset.range R.in_files.length, ∑ c in Finset.range R.in_files.length,
          w r * w c * (out.covariance_matrix.get r c).getD 0 =
        κ * ∑ r in Finset.range R.in_files.length, ∑ c in Finset.range R.in_files.length,
          w r * w c * ∑ k in Finset.range R.matrix_row_size,
            (T R (mean_of R) (input R r)).getD k 0 * (T R (mean_of R) (input R c)).getD k 0 := by
      rw [Finset.mul_sum]
      refine Finset.sum_congr rfl (fun i hi => ?_)
      rw [Finset.mul_sum]
      refine Finset.sum_congr rfl (fun j hj => ?_)
      rw [hval i j (Finset.mem_range.mp hi) (Finset.mem_range.mp hj)]
      ring
    rw [hsum, weighted_gram_eq]
    exact mul_nonneg hκ (Finset.sum_nonneg (fun i _ => sq_nonneg _))
  · rw [hval d d hd hd]
    exact mul_nonneg hκ (Finset.sum_nonneg (fun i _ => mul_self_nonneg _))

/-- Witness of C19: the whitened and scaled run of the three vectors with
the weights `w_r = r - 1`, at the cells `(0, 2)` and `(1, 1)`. -/
theorem gram_matrix_psd_witness :
    ∃ out, engine (run_whitened_scaled true) = some out ∧
      (out.covariance_matrix.get 0 2).isSome = true ∧
      0 ≤ ∑ r in Finset.range 3, ∑ c in Finset.range 3,
            ((r : ℚ) - 1) * ((c : ℚ) - 1) * (out.covariance_matrix.get r c).getD 0 ∧
      0 ≤ (out.covariance_matrix.get 1 1).getD 0 :=
  gram_matrix_psd (run_whitened_scaled true) (by decide) (by decide) (by decide)
    (fun r => (r : ℚ) - 1) 0 2 1 (by decide) (by decide) (by decide)

/-- C20: for N >= 1 input vectors, with `N * N` within `int`, when
`whiten_data` is true and `take_log` is false or `whiten_before_log` is
false, the run completes, the transformed vectors sum to zero in every
element `j`, and every row `r` of the covariance matrix sums to zero. -/
theorem centering_is_exact (R : Run α) (hw : R.whiten_data = true)
    (hcase : R.take_log = false ∨ R.whiten_before_log = false)
    (hN : 1 ≤ R.in_files.length)
    (hint : R.in_files.length * R.in_files.length ≤ INT_MAX)
    (hlen : ∀ f ∈ R.in_files, f.length = R.matrix_row_size)
    (j r : Nat) (hj : j < R.matrix_row_size) (hr : r < R.in_files.length) :
    ∃ out, engine R = some out ∧
      ∑ i in Finset.range R.in_files.length, (T R out.mean_buf (input R i)).getD j 0 = 0 ∧
      ∑ c in Finset.range R.in_files.length, (out.covariance_matrix.get r c).getD 0 = 0 := by
  obtain ⟨out, hout, hmean, _, _, _, hcells⟩ := engine_spec R hN hint hlen
  obtain ⟨κ, _, hentry⟩ := spec_entry_eq_factor R
  refine ⟨out, hout, by rw [hmean]; exact centered_sum R hw hcase hN hlen j hj, ?_⟩
  have hval : ∀ c ∈ Finset.range R.in_files.length,
      (out.covariance_matrix.get r c).getD 0 =
        κ * ∑ k in Finset.range R.matrix_row_size,
          (T R (mean_of R) (input R r)).getD k 0 * (T R (mean_of R) (input R c)).getD k 0 := by
    intro c hc
    rw [hcells r c hr (Finset.mem_range.mp hc), stored_entry_eq, hentry]
    rfl
  rw [Finset.sum_congr rfl hval, ← Finset.mul_sum,
    row_sum_inner (fun i k => (T R (mean_of R) (input R i)).getD k 0)]
  have hzero : ∀ k ∈ Finset.range R.matrix_row_size,
      (T R (mean_of R) (input R r)).getD k 0 *
        ∑ c in Finset.range R.in_files.length, (T R (mean_of R) (input R c)).getD k 0 = 0 := by
    intro k hk
    rw [centered_sum R hw hcase hN hlen k (Finset.mem_range.mp hk), mul_zero]
  rw [Finset.sum_eq_zero hzero, mul_zero]

/-- Witness of C20: the whitened run of the three vectors (no logarithm),
at element 3 and row 1. -/
theorem centering_is_exact_witness :
    ∃ out, engine (run_whitened_scaled false) = some out ∧
      ∑ i in Finset.range 3,
        (T (run_whitened_scaled false) out.mean_buf
          (input (run_whitened_scaled false) i)).getD 3 0 = 0 ∧
      ∑ c in Finset.range 3, (out.covariance_matrix.get 1 c).getD 0 = 0 :=
  centering_is_exact (run_whitened_scaled false) rfl (Or.inl rfl) (by decide) (by decide)
    (by decide) 3 1 (by decide) (by decide)

end Gram

/-! ## The accessor calls and the progress report -/

section LoopRules

variable {σ : Type}

/-- Invariant rule for the runs of a loop that complete: an invariant that
every completing iteration re-establishes holds in the final state. -/
theorem forLoopM_invariant_of_some (Inv : Nat → σ → Prop) (n : Nat)
    (body : Nat → σ → Option σ) (s t : σ) (h : forLoopM n body s = some t) (h0 : Inv 0 s)
    (hstep : ∀ i u u', i < n → Inv i u → body i u = some u' → Inv (i + 1) u') :
    Inv n t := by
  induction n generalizing t with
  | zero =>
    rw [forLoopM_zero] at h
    cases h
    exact h0
  | succ k ih =>
    rw [forLoopM_succ] at h
    cases hk : forLoopM k body s with
    | none => rw [hk] at h; simp at h
    | some u =>
      rw [hk] at h
      exact hstep k u t (Nat.lt_succ_self k)
        (ih u hk (fun i v v' hi => hstep i v v' (Nat.lt_succ_of_lt hi))) h

end LoopRules

section Rounding

end Rounding

section Report

variable {α : Type} [LinearOrderedField α]

end Report

section WriterLemmas

variable {α : Type}

/-- The writer loop completes on a matrix that reads a value at every
in-range cell, with one line for each row. -/
theorem write_results_completes (m : CovMat α)
    (hcells : ∀ r c, r < m.N → c < m.N → ∃ v, m.get r c = some v) :
    ∃ lines, write_results m = some lines ∧ lines.length = m.N := by
  have hrow : ∀ r, r < m.N → ∃ line, write_row m r = some line := by
    intro r hr
    obtain ⟨line, hline, _⟩ := forLoopM_invariant (fun _ (_ : List α) => True) m.getNumCols
      (fun c line => (m.get r c).map fun value => line ++ [value]) [] trivial
      (by
        intro c line hc _
        obtain ⟨v, hv⟩ := hcells r c hr hc
        exact ⟨line ++ [v], by simp only [hv, Option.map_some'], trivial⟩)
    exact ⟨line, hline⟩
  exact forLoopM_invariant (fun r (lines : List (List α)) => lines.length = r) m.getNumRows
    (fun r lines => (write_row m r).map fun line => lines ++ [line]) [] rfl
    (by
      intro r lines hr hlines
      obtain ⟨line, hline⟩ := hrow r hr
      refine ⟨lines ++ [line], by simp only [hline, Option.map_some'], ?_⟩
      show (lines ++ [line]).length = r + 1
      rw [List.length_append, hlines]
      rfl)

end WriterLemmas

section ReportClaims

variable {α : Type} [LinearOrderedField α]

/-- C16: for N >= 1 input vectors, with `N * N` within `int`, the
covariance loop and the writer loop both complete, so no assertion of the accessor fails on a call made by the
engine; the accessor itself succeeds exactly on indices with `row < N` and
`col < N`, and every pair `(row, col)` that the covariance loop visits (it
calls the accessor at `(row, col)` and at `(col, row)`) is in that range. -/
theorem accessor_calls_in_range (R : Run α) (hN : 1 ≤ R.in_files.length)
    (hint : R.in_files.length * R.in_files.length ≤ INT_MAX)
    (hlen : ∀ f ∈ R.in_files, f.length = R.matrix_row_size)
    (m : CovMat α) (row col : Nat) (value : α) :
    (∃ out, engine R = some out ∧ out.covariance_matrix.N = R.in_files.length ∧
      ∃ lines, write_results out.covariance_matrix = some lines ∧
        lines.length = R.in_files.length) ∧
    (m.set row col value).isSome = (decide (row < m.N) && decide (col < m.N)) ∧
    ((row, col) ∉ triangle_pairs R.in_files.length ∨
      (row < R.in_files.length ∧ col < R.in_files.length)) := by
  obtain ⟨out, hout, _, tN, _, _, hcells⟩ := engine_spec R hN hint hlen
  refine ⟨⟨out, hout, tN, ?_⟩, ?_, ?_⟩
  · obtain ⟨lines, hlines, hlen'⟩ := write_results_completes out.covariance_matrix
      (fun r c hr hc => ⟨_, hcells r c (by rw [← tN]; exact hr) (by rw [← tN]; exact hc)⟩)
    exact ⟨lines, hlines, by rw [hlen', tN]⟩
  · unfold CovMat.set
    by_cases h1 : row < m.N <;> by_cases h2 : col < m.N <;> simp [h1, h2]
  · by_cases hmem : (row, col) ∈ triangle_pairs R.in_files.length
    · right
      rw [mem_triangle_pairs] at hmem
      omega
    · exact Or.inl hmem

/-- Witness of C16: the three vectors of the end-to-end scenario, the
accessor called on the starting matrix at `(3, 0)`, one row too far. -/
theorem accessor_calls_in_range_witness :
    (∃ out, engine (run_three_vectors true) = some out ∧ out.covariance_matrix.N = 3 ∧
      ∃ lines, write_results out.covariance_matrix = some lines ∧ lines.length = 3) ∧
    (start_three_vectors.covariance_matrix.set 3 0 1).isSome =
      (decide (3 < start_three_vectors.covariance_matrix.N) &&
        decide (0 < start_three_vectors.covariance_matrix.N)) ∧
    ((3, 0) ∉ triangle_pairs 3 ∨ (3 < 3 ∧ 0 < 3)) :=
  accessor_calls_in_range (run_three_vectors true) (by decide) (by decide) (by decide)
    start_three_vectors.covariance_matrix 3 0 1

end ReportClaims

/-! ## Flags -/

section Flags

open StringUtils

theorem matches_at_start_iff (pat text : List Char) :
    matches_at_start pat text = true ↔ ∃ v, text = pat ++ v := by
  induction pat generalizing text with
  | nil => exact ⟨fun _ => ⟨text, rfl⟩, fun _ => rfl⟩
  | cons p ps ih =>
    cases text with
    | nil =>
      constructor
      · intro h; exact absurd h (by simp [matches_at_start])
      · rintro ⟨v, hv⟩; exact absurd hv (by simp)
    | cons t ts =>
      simp only [matches_at_start, Bool.and_eq_true, beq_iff_eq, ih, List.cons_append,
        List.cons.injEq]
      constructor
      · rintro ⟨h1, v, hv⟩; exact ⟨v, h1.symm, hv⟩
      · rintro ⟨v, h1, hv⟩; exact ⟨h1.symm, v, hv⟩

/-- The first occurrence is at position 0 exactly when the text starts with
the pattern. -/
theorem find_eq_zero_iff (text pat : List Char) :
    find text pat = some 0 ↔ matches_at_start pat text = true := by
  cases text with
  | nil =>
    unfold find
    split <;> simp_all
  | cons c rest =>
    unfold find
    split
    · simp_all
    · rename_i h
      simp only [h, iff_false]
      cases find rest pat <;> simp

/-- The helper yields the text after the flag when the argument starts with
the flag. -/
theorem extractAfterEquals_append (flag v : List Char) :
    extractAfterEquals (flag ++ v) flag = v := by
  have h : find (flag ++ v) flag = some 0 :=
    (find_eq_zero_iff _ _).mpr ((matches_at_start_iff _ _).mpr ⟨v, rfl⟩)
  unfold extractAfterEquals
  rw [h]
  simp

/-- The helper yields a non-empty text only when the argument starts with
the flag. -/
theorem extractAfterEquals_ne_nil (text flag : List Char)
    (h : extractAfterEquals text flag ≠ []) :
    ∃ v, v ≠ [] ∧ text = flag ++ v := by
  unfold extractAfterEquals at h
  cases hf : find text flag with
  | none => rw [hf] at h; exact absurd rfl h
  | some loc =>
    rw [hf] at h
    simp only at h
    by_cases hloc : loc + flag.length > flag.length
    · rw [if_pos hloc] at h; exact absurd rfl h
    · have h0 : loc = 0 := by omega
      subst h0
      obtain ⟨v, hv⟩ := (matches_at_start_iff _ _).mp ((find_eq_zero_iff _ _).mp hf)
      rw [if_neg hloc, hv] at h
      simp only [Nat.zero_add, List.drop_left] at h
      exact ⟨v, h, hv⟩

theorem digit_char_facts : ∀ d, d < 10 →
    isdigit (Char.ofNat (48 + d)) = true ∧ isspace (Char.ofNat (48 + d)) = false ∧
    Char.ofNat (48 + d) ≠ '-' ∧ Char.ofNat (48 + d) ≠ '+' ∧
    (Char.ofNat (48 + d)).toNat - 48 = d := by
  decide

theorem digits_value_append (xs : List Char) (c : Char) :
    digits_value (xs ++ [c]) = digits_value xs * 10 + (c.toNat - 48) := by
  unfold digits_value
  rw [List.foldl_append]
  rfl

theorem digits_value_of_digits (L : List Nat) (hL : ∀ d ∈ L, d < 10) :
    digits_value (L.reverse.map fun d => Char.ofNat (48 + d)) = Nat.ofDigits 10 L := by
  induction L with
  | nil => rfl
  | cons d L ih =>
    rw [List.reverse_cons, List.map_append, List.map_singleton, digits_value_append,
      ih (fun x hx => hL x (List.mem_cons_of_mem d hx)),
      (digit_char_facts d (hL d (List.mem_cons_self d L))).2.2.2.2, Nat.ofDigits_cons]
    ring

theorem nat_text_value (k : Nat) : digits_value (nat_text k) = k := by
  unfold nat_text
  by_cases hk : k = 0
  · rw [if_pos hk, hk]; rfl
  · rw [if_neg hk, digits_value_of_digits _ (fun d hd => Nat.digits_lt_base (by decide) hd),
      Nat.ofDigits_digits]

/-- The decimal text of a number is a non-empty run of digits. -/
theorem nat_text_digits (k : Nat) :
    (∃ c cs, nat_text k = c :: cs ∧ isdigit c = true ∧ isspace c = false ∧
      c ≠ '-' ∧ c ≠ '+') ∧ ∀ c ∈ nat_text k, isdigit c = true := by
  unfold nat_text
  by_cases hk : k = 0
  · rw [if_pos hk]
    exact ⟨⟨'0', [], rfl, by decide, by decide, by decide, by decide⟩,
      fun c hc => by rw [List.mem_singleton] at hc; rw [hc]; decide⟩
  · rw [if_neg hk]
    have hall : ∀ c ∈ ((Nat.digits 10 k).reverse).map (fun d => Char.ofNat (48 + d)),
        isdigit c = true ∧ isspace c = false ∧ c ≠ '-' ∧ c ≠ '+' := by
      intro c hc
      rw [List.mem_map] at hc
      obtain ⟨d, hd, hdc⟩ := hc
      rw [List.mem_reverse] at hd
      have h := digit_char_facts d (Nat.digits_lt_base (by decide) hd)
      rw [← hdc]
      exact ⟨h.1, h.2.1, h.2.2.1, h.2.2.2.1⟩
    refine ⟨?_, fun c hc => (hall c hc).1⟩
    cases hl : ((Nat.digits 10 k).reverse).map (fun d => Char.ofNat (48 + d)) with
    | nil =>
      have hnil : Nat.digits 10 k = [] := by
        simpa using hl
      exact absurd (Nat.digits_eq_nil_iff_eq_zero.mp hnil) hk
    | cons c cs =>
      have h := hall c (by rw [hl]; exact List.mem_cons_self c cs)
      exact ⟨c, cs, rfl, h.1, h.2.1, h.2.2.1, h.2.2.2⟩

/-- Extracting an `int` from the decimal text of a number in the range of
`int` succeeds with that number. -/
theorem extract_int_decimal_text (n : Int)
    (hn : -(INT_MAX : Int) - 1 ≤ n ∧ n ≤ (INT_MAX : Int)) :
    extract_int (decimal_text n) = some n := by
  obtain ⟨⟨c, cs, hcs, hdig, hsp, hminus, hplus⟩, hall⟩ := nat_text_digits n.natAbs
  have htake : (nat_text n.natAbs).takeWhile isdigit = nat_text n.natAbs :=
    List.takeWhile_eq_self_iff.mpr hall
  have hne : ((nat_text n.natAbs).isEmpty) = false := by rw [hcs]; rfl
  unfold extract_int decimal_text
  by_cases hneg : n < 0
  · rw [if_pos hneg]
    have hdrop : ('-' :: nat_text n.natAbs).dropWhile isspace = '-' :: nat_text n.natAbs :=
      List.dropWhile_cons_of_neg (by decide)
    have hstrip : strip_sign ('-' :: nat_text n.natAbs) = (true, nat_text n.natAbs) := by
      simp [strip_sign]
    simp only [hdrop, hstrip, htake, hne, nat_text_value, Bool.false_eq_true, if_false, if_true]
    have hval : -((n.natAbs : Nat) : Int) = n := by omega
    rw [hval, if_pos hn]
  · rw [if_neg hneg]
    have hdrop : (nat_text n.natAbs).dropWhile isspace = nat_text n.natAbs := by
      rw [hcs]
      exact List.dropWhile_cons_of_neg (by rw [hsp]; decide)
    have hstrip : strip_sign (nat_text n.natAbs) = (false, nat_text n.natAbs) := by
      rw [hcs]
      simp [strip_sign, hminus, hplus]
    simp only [hdrop, hstrip, htake, hne, nat_text_value, Bool.false_eq_true, if_false]
    have hval : ((n.natAbs : Nat) : Int) = n := by omega
    rw [hval, if_pos hn]

/-- An argument that does not match the flag followed by `=` at its start
does not begin with the flag, `=` and a value. -/
theorem not_flag_value_of_mismatch (f s : List Char)
    (h : matches_at_start (f ++ ['=']) s = false) :
    ¬ ∃ v, v ≠ [] ∧ s = f ++ '=' :: v := by
  rintro ⟨v, _, hv⟩
  have hm : matches_at_start (f ++ ['=']) s = true :=
    (matches_at_start_iff _ _).mpr ⟨v, by rw [hv]; simp⟩
  rw [hm] at h
  exact absurd h (by decide)

/-- C12: for every flag name `f`, `parseArg<int>` applied to `f`, `=` and the
decimal text of an `int` `n` sets `parse_ok` to true and returns `n`; applied
to an argument `s` that does not begin with `f`, `=` and a non-empty value,
it sets `parse_ok` to false. -/
theorem parse_arg_contract (f s : List Char) (n : Int)
    (hn : -(INT_MAX : Int) - 1 ≤ n ∧ n ≤ (INT_MAX : Int))
    (hs : ¬ ∃ v, v ≠ [] ∧ s = f ++ '=' :: v) :
    parseArg extract_int (f ++ '=' :: decimal_text n) f = some n ∧
    parseArg extract_int s f = none := by
  constructor
  · have hx : extractAfterEquals (f ++ '=' :: decimal_text n) (f ++ ['=']) = decimal_text n := by
      have e : f ++ '=' :: decimal_text n = (f ++ ['=']) ++ decimal_text n := by simp
      rw [e, extractAfterEquals_append]
    have hne : (decimal_text n).isEmpty = false := by
      obtain ⟨⟨c, cs, hcs, _⟩, _⟩ := nat_text_digits n.natAbs
      unfold decimal_text
      split
      · rfl
      · rw [hcs]; rfl
    unfold parseArg
    simp only [hx, hne, Bool.false_eq_true, if_false]
    exact extract_int_decimal_text n hn
  · have hx : extractAfterEquals s (f ++ ['=']) = [] := by
      by_contra hcon
      obtain ⟨v, hv, hsv⟩ := extractAfterEquals_ne_nil _ _ hcon
      exact hs ⟨v, hv, by rw [hsv]; simp⟩
    unfold parseArg
    simp [hx]

/-- Witness of C12: the flag `--num_days`, the number 10 and the argument
`--num_days10` of the doc comment of `parseArg`. -/
theorem parse_arg_contract_witness :
    parseArg extract_int ("--num_days".toList ++ '=' :: decimal_text 10) "--num_days".toList
      = some 10 ∧
    parseArg extract_int "--num_days10".toList "--num_days".toList = none :=
  parse_arg_contract "--num_days".toList "--num_days10".toList 10 (by decide)
    (not_flag_value_of_mismatch _ _ (by decide))

end Flags

section FlagLoop

open StringUtils

theorem startsWith_eq_matches (text pat : List Char) :
    startsWith text pat = matches_at_start pat text := by
  unfold startsWith
  cases h : matches_at_start pat text
  · have hne : find text pat ≠ some 0 := by
      intro hf
      rw [(find_eq_zero_iff _ _).mp hf] at h
      exact absurd h (by decide)
    simpa using hne
  · rw [(find_eq_zero_iff _ _).mpr h]
    rfl

/-- C11 (evaluation at the failing input): an argument that starts with
`--num_color_channels=`, the name that the usage text prints, matches none of
the five names that the flag loop tests, so the loop stops at it: the options
keep their defaults, `num_color_channels` stays 3 and the dimension stays
`90*90*180*3`, and the argument is counted as the first file name.  The name
that the loop tests is `--num_channels`, which sets the option. -/
theorem color_channels_flag_is_not_recognized (value : List Char)
    (rest : List (List Char)) :
    flag_loop_from (("--num_color_channels=".toList ++ value) :: rest) 1 {} = some ({}, 1) ∧
    parse_command_line ["pca".toList, "--num_color_channels=1".toList, "a.binary".toList,
      "out.txt".toList] = some ({}, 1) ∧
    ({} : Options).num_color_channels = 3 ∧
    matrix_row_size_of 3 = 4374000 ∧
    matrix_row_size_of 1 = 1458000 ∧
    parse_command_line ["pca".toList, "--num_channels=1".toList, "a.binary".toList,
      "out.txt".toList] = some ({ num_color_channels := 1 }, 2) ∧
    "--num_color_channels".toList ∈ usage_options ∧
    "--num_channels".toList ∉ usage_options := by
  refine ⟨?_, by decide, rfl, by decide, by decide, by decide, by decide, by decide⟩
  have h1 : startsWith ("--num_color_channels=".toList ++ value) "--take_natural_log".toList
      = false := by rw [startsWith_eq_matches]; rfl
  have h2 : startsWith ("--num_color_channels=".toList ++ value) "--whiten_data".toList
      = false := by rw [startsWith_eq_matches]; rfl
  have h3 : startsWith ("--num_color_channels=".toList ++ value) "--scale_covariances".toList
      = false := by rw [startsWith_eq_matches]; rfl
  have h4 : startsWith ("--num_color_channels=".toList ++ value) "--whiten_before_log".toList
      = false := by rw [startsWith_eq_matches]; rfl
  have h5 : startsWith ("--num_color_channels=".toList ++ value) "--num_channels".toList
      = false := by rw [startsWith_eq_matches]; rfl
  unfold flag_loop_from
  simp only [h1, h2, h3, h4, h5, Bool.false_eq_true, if_false]

end FlagLoop

/-! ## The NaN assertion, on any scalars -/

section NaN

variable {α : Type} [Zero α] [One α] [Add α] [Sub α] [Mul α] [Div α] [Neg α] [NatCast α]
  [LT α] [DecidableRel (fun (x y : α) => x < y)] [BEq α]

/-- A completing iteration of the column loop computed a value that is not a
NaN and assigned it to the cells `(r, c)` and `(c, r)`. -/
theorem column_body_of_some (R : Run α) (mean : List α) (count_max r c : Nat)
    (s t : LoopState α)
    (hr : r < s.covariance_matrix.N) (hc : c < s.covariance_matrix.N)
    (hfile : (input R c).length = R.matrix_row_size)
    (hbuf : s.buf_b.length = R.matrix_row_size)
    (h : column_body R mean count_max r c s = some t) :
    IsNaN (spec_entry R s.buf_a (T R mean (input R c))) = false ∧
    t.buf_a = s.buf_a ∧ t.buf_b = T R mean (input R c) ∧
    t.covariance_matrix =
      { N := s.covariance_matrix.N,
        data := (s.covariance_matrix.data.set (r * s.covariance_matrix.N + c)
                  (spec_entry R s.buf_a (T R mean (input R c)))).set
                  (c * s.covariance_matrix.N + r)
                  (spec_entry R s.buf_a (T R mean (input R c))) } := by
  unfold column_body at h
  simp only [load_column_eq R mean s.buf_b c hfile hbuf, CovMat.set, hr, hc, if_true,
    Option.some_bind] at h
  have hv : (if R.scale_covariances = true then
        dot R.DONT_USE_BLAS s.buf_a (T R mean (input R c)) R.matrix_row_size /
          (R.matrix_row_size : α)
      else dot R.DONT_USE_BLAS s.buf_a (T R mean (input R c)) R.matrix_row_size) =
      spec_entry R s.buf_a (T R mean (input R c)) := rfl
  simp only [hv] at h
  by_cases hn : IsNaN (spec_entry R s.buf_a (T R mean (input R c))) = true
  · rw [if_pos hn] at h
    exact absurd h (by simp)
  · rw [if_neg hn] at h
    simp only [Option.some.injEq] at h
    rw [← h]
    exact ⟨by simpa using hn, rfl, rfl, rfl⟩

/-- The column loop of row `r`, when it completes: every cell of the leading
`(r + 1) × (r + 1)` block holds its stored entry, and none is a NaN. -/
theorem column_loop_of_some (R : Run α) (mean : List α) (count_max r : Nat)
    (hlen : ∀ f ∈ R.in_files, f.length = R.matrix_row_size)
    (hr : r < R.in_files.length) (s t : LoopState α)
    (h : forLoopM (r + 1) (column_body R mean count_max r) s = some t)
    (hN : s.covariance_matrix.N = R.in_files.length)
    (hwf : s.covariance_matrix.data.length = R.in_files.length * R.in_files.length)
    (ha : s.buf_a = T R mean (input R r))
    (hb : s.buf_b.length = R.matrix_row_size)
    (hold : ∀ i j, i < r → j < r →
      s.covariance_matrix.get i j = some (stored_entry R mean i j) ∧
      IsNaN (stored_entry R mean i j) = false) :
    t.covariance_matrix.N = R.in_files.length ∧
    t.covariance_matrix.data.length = R.in_files.length * R.in_files.length ∧
    t.buf_a.length = R.matrix_row_size ∧ t.buf_b.length = R.matrix_row_size ∧
    ∀ i j, i < r + 1 → j < r + 1 →
      t.covariance_matrix.get i j = some (stored_entry R mean i j) ∧
      IsNaN (stored_entry R mean i j) = false := by
  have hloop := forLoopM_invariant_of_some
    (fun (c : Nat) (t : LoopState α) =>
      t.covariance_matrix.N = R.in_files.length ∧
      t.covariance_matrix.data.length = R.in_files.length * R.in_files.length ∧
      t.buf_a = T R mean (input R r) ∧ t.buf_b.length = R.matrix_row_size ∧
      ∀ i j, i < R.in_files.length → j < R.in_files.length →
        ((i < r ∧ j < r) ∨ (i = r ∧ j < c) ∨ (j = r ∧ i < c)) →
        t.covariance_matrix.get i j = some (stored_entry R mean i j) ∧
        IsNaN (stored_entry R mean i j) = false)
    (r + 1) (column_body R mean count_max r) s t h
    ⟨hN, hwf, ha, hb, by
      intro i j _ _ hfill
      rcases hfill with ⟨h1, h2⟩ | ⟨_, h2⟩ | ⟨_, h2⟩
      · exact hold i j h1 h2
      · exact absurd h2 (Nat.not_lt_zero j)
      · exact absurd h2 (Nat.not_lt_zero i)⟩
    (by
      intro c u u' hc ⟨tN, twf, ta, tb, tcells⟩ hbody
      have hcr : c ≤ r := Nat.le_of_lt_succ hc
      have hcN : c < R.in_files.length := lt_of_le_of_lt hcr hr
      obtain ⟨hnan, ha', hb', hm'⟩ :=
        column_body_of_some R mean count_max r c u u' (by rw [tN]; exact hr)
          (by rw [tN]; exact hcN) (input_length R hlen c hcN) tb hbody
      rw [ta] at hnan hm'
      have hv := stored_entry_of_le R mean r c hcr
      refine ⟨?_, ?_, ?_, ?_, ?_⟩
      · rw [hm']; exact tN
      · rw [hm']; simp only [List.length_set]; exact twf
      · rw [ha']; exact ta
      · rw [hb', T_length]; exact input_length R hlen c hcN
      · intro i j hi hj hfill
        rw [hm', tN]
        have e2 := CovMat.get_after_set
          ({ N := u.covariance_matrix.N,
             data := u.covariance_matrix.data.set (r * u.covariance_matrix.N + c)
               (spec_entry R (T R mean (input R r)) (T R mean (input R c))) } : CovMat α)
          (by simp only [List.length_set]; rw [twf, tN]) c r i j
          (spec_entry R (T R mean (input R r)) (T R mean (input R c)))
          (by show c < u.covariance_matrix.N; rw [tN]; exact hcN)
          (by show r < u.covariance_matrix.N; rw [tN]; exact hr)
          (by show i < u.covariance_matrix.N; rw [tN]; exact hi)
          (by show j < u.covariance_matrix.N; rw [tN]; exact hj)
        have e1 := CovMat.get_after_set u.covariance_matrix (by rw [twf, tN]) r c i j
          (spec_entry R (T R mean (input R r)) (T R mean (input R c)))
          (by rw [tN]; exact hr) (by rw [tN]; exact hcN)
          (by rw [tN]; exact hi) (by rw [tN]; exact hj)
        simp only [tN] at e1 e2
        rw [e2, e1]
        by_cases h1 : c = i ∧ r = j
        · rw [if_pos h1, ← h1.1, ← h1.2, hv.2]
          exact ⟨rfl, hnan⟩
        · rw [if_neg h1]
          by_cases h2 : r = i ∧ c = j
          · rw [if_pos h2, ← h2.1, ← h2.2, hv.1]
            exact ⟨rfl, hnan⟩
          · rw [if_neg h2]
            apply tcells i j hi hj
            rcases hfill with h | ⟨h3, h4⟩ | ⟨h3, h4⟩
            · exact Or.inl h
            · refine Or.inr (Or.inl ⟨h3, ?_⟩)
              rcases Nat.lt_succ_iff_lt_or_eq.mp h4 with h5 | h5
              · exact h5
              · exact absurd ⟨h3.symm, h5.symm⟩ h2
            · refine Or.inr (Or.inr ⟨h3, ?_⟩)
              rcases Nat.lt_succ_iff_lt_or_eq.mp h4 with h5 | h5
              · exact h5
              · exact absurd ⟨h5.symm, h3.symm⟩ h1)
  obtain ⟨tN, twf, ta, tb, tcells⟩ := hloop
  refine ⟨tN, twf, ?_, tb, ?_⟩
  · rw [ta, T_length]; exact input_length R hlen r hr
  · intro i j hi hj
    have hiN : i < R.in_files.length := by omega
    have hjN : j < R.in_files.length := by omega
    apply tcells i j hiN hjN
    rcases Nat.lt_succ_iff_lt_or_eq.mp hi with h1 | h1
    · rcases Nat.lt_succ_iff_lt_or_eq.mp hj with h2 | h2
      · exact Or.inl ⟨h1, h2⟩
      · exact Or.inr (Or.inr ⟨h2, hi⟩)
    · exact Or.inr (Or.inl ⟨h1, hj⟩)

/-- The covariance loop, when it completes: every cell holds its stored
entry, and none is a NaN. -/
theorem covariance_loop_of_some (R : Run α) (mean : List α) (count_max : Nat)
    (hlen : ∀ f ∈ R.in_files, f.length = R.matrix_row_size) (s t : LoopState α)
    (h : covariance_loop R mean R.in_files.length count_max s = some t)
    (hN : s.covariance_matrix.N = R.in_files.length)
    (hwf : s.covariance_matrix.data.length = R.in_files.length * R.in_files.length)
    (ha : s.buf_a.length = R.matrix_row_size) (hb : s.buf_b.length = R.matrix_row_size) :
    ∀ i j, i < R.in_files.length → j < R.in_files.length →
      t.covariance_matrix.get i j = some (stored_entry R mean i j) ∧
      IsNaN (stored_entry R mean i j) = false := by
  unfold covariance_loop at h
  have hloop := forLoopM_invariant_of_some
    (fun (r : Nat) (t : LoopState α) =>
      t.covariance_matrix.N = R.in_files.length ∧
      t.covariance_matrix.data.length = R.in_files.length * R.in_files.length ∧
      t.buf_a.length = R.matrix_row_size ∧ t.buf_b.length = R.matrix_row_size ∧
      ∀ i j, i < r → j < r →
        t.covariance_matrix.get i j = some (stored_entry R mean i j) ∧
        IsNaN (stored_entry R mean i j) = false)
    R.in_files.length (row_body R mean count_max) s t h
    ⟨hN, hwf, ha, hb, fun i _ hi _ => absurd hi (Nat.not_lt_zero i)⟩
    (by
      intro r u u' hr ⟨tN, twf, ta, tb, tcells⟩ hrow
      unfold row_body at hrow
      exact column_loop_of_some R mean count_max r hlen hr
        { u with buf_a := load_row R mean r u.buf_a } u' hrow tN twf
        (load_row_eq R mean u.buf_a r (input_length R hlen r hr) ta) tb tcells)
  exact hloop.2.2.2.2

/-- A completed run of the engine passed the three NaN checks on the
buffers and the constructor of the matrix, and its covariance loop
completed. -/
theorem engine_of_some (R : Run α) (out : Outcome α) (h : engine R = some out) :
    0 < R.in_files.length ∧ R.in_files.length * R.in_files.length ≤ INT_MAX ∧
    ∃ t, covariance_loop R (mean_of R) R.in_files.length
        (R.in_files.length * (R.in_files.length + 1) / 2)
        { buf_a := (mean_pass R (zero_buffers R.matrix_row_size)).buf_a,
          buf_b := (mean_pass R (zero_buffers R.matrix_row_size)).buf_b,
          covariance_matrix :=
            { N := R.in_files.length,
              data := List.replicate (R.in_files.length * R.in_files.length) (-999 : α) },
          count := 0, prev_perc := -REQ_PERC_JUMP_FOR_UPDATE * 2, printed := [] } = some t ∧
      out.covariance_matrix = t.covariance_matrix := by
  unfold engine at h
  simp only [CovMat.create] at h
  split at h
  · exact absurd h (by simp)
  · by_cases hN : 0 < R.in_files.length ∧ R.in_files.length * R.in_files.length ≤ INT_MAX
    · rw [if_pos hN.1, if_pos hN.2] at h
      simp only [Option.some_bind] at h
      refine ⟨hN.1, hN.2, ?_⟩
      cases hl : covariance_loop R (mean_pass R (zero_buffers R.matrix_row_size)).mean_buf
          R.in_files.length (R.in_files.length * (R.in_files.length + 1) / 2)
          { buf_a := (mean_pass R (zero_buffers R.matrix_row_size)).buf_a,
            buf_b := (mean_pass R (zero_buffers R.matrix_row_size)).buf_b,
            covariance_matrix :=
              { N := R.in_files.length,
                data := List.replicate (R.in_files.length * R.in_files.length) (-999 : α) },
            count := 0, prev_perc := -REQ_PERC_JUMP_FOR_UPDATE * 2, printed := [] } with
      | none => rw [hl] at h; simp at h
      | some t =>
        rw [hl] at h
        simp only [Option.map_some', Option.some.injEq] at h
        exact ⟨t, hl, by rw [← h]⟩
    · exfalso
      by_cases h0 : 0 < R.in_files.length
      · rw [if_pos h0, if_neg (fun hi => hN ⟨h0, hi⟩)] at h
        simp at h
      · rw [if_neg h0] at h
        simp at h

/-- In a completed run every cell holds its stored entry, and no stored
entry is a NaN. -/
theorem engine_cells_of_some (R : Run α) (out : Outcome α)
    (hlen : ∀ f ∈ R.in_files, f.length = R.matrix_row_size) (h : engine R = some out)
    (i j : Nat) (hi : i < R.in_files.length) (hj : j < R.in_files.length) :
    out.covariance_matrix.get i j = some (stored_entry R (mean_of R) i j) ∧
    IsNaN (stored_entry R (mean_of R) i j) = false := by
  obtain ⟨_, _, t, ht, hm⟩ := engine_of_some R out h
  obtain ⟨_, ha, hb⟩ := mean_pass_lengths R hlen
  rw [hm]
  exact covariance_loop_of_some R (mean_of R) _ hlen _ t ht rfl (by simp) ha hb i j hi hj

/-- C13: on any scalar type with the operations of the source, where
`IsNaN` is the test `val != val`.  When the value computed for a pair
`(r, c)` of a run `R` is a NaN, the engine aborts: `R` does not complete.  A
run `R'` that completes reads at every cell a value that is not a NaN.  In
one iteration of the column loop, from any state `s`, the matrix changes only
by the assignment of the computed value to `(r, c)` and `(c, r)`, and the
iteration aborts without these assignments when the value is a NaN. -/
theorem nan_is_fatal (R R' : Run α) (out : Outcome α) (mean : List α) (count_max : Nat)
    (s : LoopState α) (r c i j : Nat)
    (hlen : ∀ f ∈ R.in_files, f.length = R.matrix_row_size)
    (hcr : c ≤ r) (hr : r < R.in_files.length)
    (hnan : IsNaN (stored_entry R (mean_of R) r c) = true)
    (hlen' : ∀ f ∈ R'.in_files, f.length = R'.matrix_row_size)
    (hdone : engine R' = some out)
    (hi : i < R'.in_files.length) (hj : j < R'.in_files.length) :
    engine R = none ∧
    (∃ v, out.covariance_matrix.get i j = some v ∧ IsNaN v = false) ∧
    (column_body R mean count_max r c s).map (fun t => t.covariance_matrix) =
      (if IsNaN (spec_entry R s.buf_a (load_column R mean c s.buf_b)) then none
       else (s.covariance_matrix.set r c
              (spec_entry R s.buf_a (load_column R mean c s.buf_b))).bind fun m =>
            m.set c r (spec_entry R s.buf_a (load_column R mean c s.buf_b))) := by
  refine ⟨?_, ?_, ?_⟩
  · cases h : engine R with
    | none => rfl
    | some o =>
      have hc := (engine_cells_of_some R o hlen h r c hr (lt_of_le_of_lt hcr hr)).2
      rw [hnan] at hc
      exact absurd hc (by decide)
  · exact ⟨_, engine_cells_of_some R' out hlen' hdone i j hi hj⟩
  · have hv : (if R.scale_covariances = true then
          dot R.DONT_USE_BLAS s.buf_a (load_column R mean c s.buf_b) R.matrix_row_size /
            (R.matrix_row_size : α)
        else dot R.DONT_USE_BLAS s.buf_a (load_column R mean c s.buf_b) R.matrix_row_size) =
        spec_entry R s.buf_a (load_column R mean c s.buf_b) := rfl
    unfold column_body
    simp only [hv]
    generalize spec_entry R s.buf_a (load_column R mean c s.buf_b) = v
    cases IsNaN v
    · simp only [Bool.false_eq_true, if_false]
      cases s.covariance_matrix.set r c v with
      | none => rfl
      | some m =>
        simp only [Option.some_bind]
        cases m.set c r v with
        | none => rfl
        | some m' => rfl
    · rfl

end NaN

/-- Witness of C13: `run_with_nan`, whose pair `(1, 0)` computes a NaN, and
`run_without_nan`, which completes with `outcome_without_nan`, read at the
cell `(0, 1)`; the iteration is the one of the pair `(1, 0)` started with
the first file in the row buffer. -/
theorem nan_is_fatal_witness :
    engine run_with_nan = none ∧
    (∃ v, outcome_without_nan.covariance_matrix.get 0 1 = some v ∧ IsNaN v = false) ∧
    (column_body run_with_nan [0, 0] 3 1 0 state_with_nan).map (fun t => t.covariance_matrix) =
      (if IsNaN (spec_entry run_with_nan state_with_nan.buf_a
            (load_column run_with_nan [0, 0] 0 state_with_nan.buf_b)) then none
       else (state_with_nan.covariance_matrix.set 1 0
              (spec_entry run_with_nan state_with_nan.buf_a
                (load_column run_with_nan [0, 0] 0 state_with_nan.buf_b))).bind fun m =>
            m.set 0 1 (spec_entry run_with_nan state_with_nan.buf_a
                (load_column run_with_nan [0, 0] 0 state_with_nan.buf_b))) :=
  nan_is_fatal run_with_nan run_without_nan outcome_without_nan [0, 0] 3 state_with_nan
    1 0 0 1
    (by
      intro f hf
      simp only [run_with_nan, List.mem_cons, List.mem_singleton, List.not_mem_nil,
        or_false] at hf
      rcases hf with h | h <;> rw [h] <;> rfl)
    (by decide) (by decide) (by decide!)
    (by
      intro f hf
      simp only [run_without_nan, List.mem_cons, List.mem_singleton, List.not_mem_nil,
        or_false] at hf
      rcases hf with h | h <;> rw [h] <;> rfl)
    (by decide!) (by decide) (by decide)


section LogOnDbl

/-- The constant `SMALL_VAL` on `Dbl`. -/
theorem small_val_dbl : (SMALL_VAL : Dbl) = Dbl.num (1 / 10000000000) := by decide!

theorem lt_num_iff (p q : ℚ) : (Dbl.num p < Dbl.num q) ↔ p < q := by
  show (Dbl.less (Dbl.num p) (Dbl.num q) = true) ↔ p < q
  simp [Dbl.less]

/-- The two tests of `component_wise_log` on a `Dbl`: a number passes the
first or the second one, the NaN fails both. -/
theorem log_tests_dbl (y : Dbl) :
    (fabs (bool_to_double (decide (y < SMALL_VAL)) : Dbl) != 0) =
      (match y with
       | Dbl.num q => decide (q < 1 / 10000000000)
       | Dbl.nan => false) ∧
    (decide (y > 0) =
      (match y with
       | Dbl.num q => decide (0 < q)
       | Dbl.nan => false)) := by
  cases y with
  | nan => exact ⟨rfl, rfl⟩
  | num q =>
    constructor
    · rw [small_val_dbl]
      by_cases h : q < 1 / 10000000000
      · have h' : Dbl.num q < Dbl.num (1 / 10000000000) := (lt_num_iff _ _).mpr h
        simp only [h, h', decide_True]
        rfl
      · have h' : ¬ Dbl.num q < Dbl.num (1 / 10000000000) := fun hh => h ((lt_num_iff _ _).mp hh)
        simp only [h, h', decide_False]
        rfl
    · show decide (Dbl.num 0 < Dbl.num q) = decide (0 < q)
      simp only [lt_num_iff]

/-- The value that `component_wise_log` assigns to a cell that holds `y`. -/
theorem log_elem_dbl (log : Dbl → Dbl) (y : Dbl) :
    log_elem log y =
      (match y with
       | Dbl.num q => if q < 1 / 10000000000 then 0 else log (Dbl.num q)
       | Dbl.nan => -(log (-Dbl.nan))) := by
  obtain ⟨h1, h2⟩ := log_tests_dbl y
  unfold log_elem
  rw [h1]
  cases y with
  | nan =>
    have h3 : ¬ (Dbl.nan > 0) := by
      intro h
      have := decide_eq_true h
      rw [h2] at this
      exact absurd this (by decide)
    simp only [Bool.false_eq_true, if_false, h3]
  | num q =>
    by_cases h : q < 1 / 10000000000
    · simp only [h, decide_True, if_true]
    · have hq : 0 < q := lt_of_lt_of_le (by norm_num) (not_lt.mp h)
      have h3 : Dbl.num q > 0 := by
        have := h2
        simp only [hq, decide_True, decide_eq_true_eq] at this
        exact this
      simp only [h, decide_False, Bool.false_eq_true, if_false, h3, if_true]

/-- C18 (counterexample): for a NaN element both tests of the loop body are
false, `fabs(a[i] < SMALL_VAL)` is zero and `a[i] > 0` does not hold, so the
third branch runs; with a function that returns `1` in the place of `log`,
the cell is left with `-1`, the value of `-log(-a[i])`. -/
theorem nan_reaches_the_negative_branch :
    (fabs (bool_to_double (decide (Dbl.nan < SMALL_VAL)) : Dbl) != 0) = false ∧
    decide (Dbl.nan > 0) = false ∧
    component_wise_log (fun _ => Dbl.num 1) [Dbl.nan] 1 true = [Dbl.num (-1)] := by
  refine ⟨by decide!, by decide!, by decide!⟩

/-- C18 (amended): on the numbers and the NaN.  With `take_log = true` and
`N` within the buffer, every cell `i < N` that holds a number `x` is left
with `0` when `x < SMALL_VAL = 1e-10` and with `log x` otherwise, and a cell
that holds a NaN is left with `-log(-NaN)`; a value `y` fails both the
zeroing test `fabs(y < SMALL_VAL)` and the test `y > 0`, so that the branch
that computes `-log(-y)` is taken, exactly when `y` is a NaN. -/
theorem near_zero_test_on_comparison (log : Dbl → Dbl) (a : List Dbl) (N i : Nat) (y : Dbl)
    (hN : N ≤ a.length) (hi : i < N) :
    (component_wise_log log a N true)[i]? =
      some (match a.getD i 0 with
            | Dbl.num x => if x < 1 / 10000000000 then 0 else log (Dbl.num x)
            | Dbl.nan => -(log (-Dbl.nan))) ∧
    (SMALL_VAL : Dbl) = Dbl.num (1 / 10000000000) ∧
    (((fabs (bool_to_double (decide (y < SMALL_VAL)) : Dbl) != 0) = false ∧ ¬ (y > 0)) ↔
      y = Dbl.nan) := by
  refine ⟨?_, small_val_dbl, ?_⟩
  · rw [component_wise_log_eq]
    have h : (forLoop N (fun i a => a.set i (log_elem log (a.getD i 0))) a)[i]? =
        if i < N then some (log_elem log (a.getD i 0)) else a[i]? :=
      forLoop_set_cell (fun _ x => log_elem log x) N a i hN
    rw [h, if_pos hi, log_elem_dbl]
  · obtain ⟨h1, h2⟩ := log_tests_dbl y
    rw [h1]
    cases y with
    | nan =>
      have h3 : ¬ (Dbl.nan > 0) := by
        intro h
        have := decide_eq_true h
        rw [h2] at this
        exact absurd this (by decide)
      exact ⟨fun _ => rfl, fun _ => ⟨rfl, h3⟩⟩
    | num q =>
      constructor
      · rintro ⟨h3, h4⟩
        exfalso
        have h5 : ¬ q < 1 / 10000000000 := by simpa using h3
        have hq : 0 < q := lt_of_lt_of_le (by norm_num) (not_lt.mp h5)
        apply h4
        have := h2
        simp only [hq, decide_True, decide_eq_true_eq] at this
        exact this
      · intro h
        exact absurd h (by simp)

/-- Witness of C18: the buffer `[-2, NaN, 2]` with the identity in place of
the logarithm, at the negative cell. -/
theorem near_zero_test_on_comparison_witness :
    (component_wise_log (fun x => x) [Dbl.num (-2), Dbl.nan, Dbl.num 2] 3 true)[0]? =
      some (match [Dbl.num (-2), Dbl.nan, Dbl.num 2].getD 0 0 with
            | Dbl.num x => if x < 1 / 10000000000 then 0 else (fun x => x) (Dbl.num x)
            | Dbl.nan => -((fun x => x) (-Dbl.nan))) ∧
    (SMALL_VAL : Dbl) = Dbl.num (1 / 10000000000) ∧
    (((fabs (bool_to_double (decide (Dbl.num (-2) < SMALL_VAL)) : Dbl) != 0) = false ∧
        ¬ (Dbl.num (-2) > 0)) ↔ Dbl.num (-2) = Dbl.nan) :=
  near_zero_test_on_comparison (fun x => x) [Dbl.num (-2), Dbl.nan, Dbl.num 2] 3 0
    (Dbl.num (-2)) (by decide) (by decide)

end LogOnDbl

end BrdfPca
